import Mathlib

/-!
Verification of the job orchestration and caching engine of the
competitive-intelligence report system (PostgreSQL backend).

The definitions below are a shallow embedding of the code in
src/database/postgres_models.py, src/orchestrator/job_processor_postgres.py
and src/scripts/cleanup_old_data_postgres.py.

Modelling conventions:
- timestamps are natural numbers, counting seconds; CURRENT_TIMESTAMP and
  datetime.now() are passed in as an explicit clock value;
- SQL NULL is Option.none; a Python keyword argument that defaults to None is
  an Option parameter;
- one-row UPDATE statements become functions JobRow to JobRow.  Following
  PostgreSQL semantics, every expression on the right-hand side of a SET list
  reads the OLD value of the columns it mentions;
- the external collaborators (scraper subprocess, analysis subprocess, email
  sender) and the filesystem are abstracted into an environment of outcome
  functions, since they are out of scope for the spec.
-/

namespace CompIntel

/-- Python truthiness of an optional string argument: None and the empty
string are falsy.  update_status uses plain truth tests on its keyword
arguments. -/
def py_truthy : Option String → Bool
  | none => false
  | some s => !(s == "")

/-- One row of the jobs table (src/database/postgres_models.py, schema at
lines 127-145). -/
structure JobRow where
  status : String
  progress_percentage : Option Nat
  current_step : Option String
  total_steps : Nat
  completed_steps : Nat
  error_message : Option String
  created_at : Nat
  updated_at : Nat
  started_at : Option Nat
  completed_at : Option Nat
deriving DecidableEq, Repr

/-- Rounding of the nonnegative rational num/den to the nearest integer,
ties away from zero: the rounding PostgreSQL applies when assigning a
numeric value to an INTEGER column.  (Exact for every denominator whose
quotient is representable within the precision of numeric division, which
covers all totals this system produces.) -/
def pg_round (num den : Nat) : Nat := (2 * num + den) / (2 * den)

/-- JobManager.update_status (src/database/postgres_models.py lines 262-293).
The SET list always contains status and updated_at; current_step and
error_message are appended only when truthy; started_at is touched only when
the new status is processing AND current_step is truthy (the Python guard is
`if status == 'processing' and current_step`); completed_at is overwritten
whenever the new status is completed or failed. -/
def update_status (row : JobRow) (now : Nat) (status : String)
    (current_step : Option String) (error_message : Option String) : JobRow :=
  { row with
    status := status
    updated_at := now
    current_step := if py_truthy current_step then current_step else row.current_step
    error_message := if py_truthy error_message then error_message else row.error_message
    started_at :=
      if status = "processing" ∧ py_truthy current_step = true then
        some (row.started_at.getD now)
      else row.started_at
    completed_at :=
      if status = "completed" ∨ status = "failed" then some now else row.completed_at }

/-- JobManager.update_progress (src/database/postgres_models.py lines
295-304).  The UPDATE sets completed_steps to the supplied value and
progress_percentage to (completed_steps * 100.0) / NULLIF(total_steps, 0);
PostgreSQL evaluates that right-hand side against the OLD row, so the stored
percentage is computed from the PREVIOUS completed_steps value, and is NULL
when total_steps = 0. -/
def update_progress (row : JobRow) (now : Nat) (completed_steps : Nat) : JobRow :=
  { row with
    completed_steps := completed_steps
    progress_percentage :=
      if row.total_steps = 0 then none
      else some (pg_round (row.completed_steps * 100) row.total_steps)
    updated_at := now }

/-- One row of the scraped_sites cache table (schema at lines 148-162). -/
structure CacheRow where
  url : String
  dealership_name : String
  last_scraped_at : Nat
  inventory_path : Option String
  tools_path : Option String
  vehicle_count : Nat
  tools_count : Nat
  status : String
  error_message : Option String
  cache_valid_until : Nat
deriving DecidableEq, Repr

/-- The urls of the cache table are pairwise distinct: the invariant the
UNIQUE constraint on scraped_sites.url maintains. -/
def cache_urls_nodup (table : List CacheRow) : Prop :=
  (table.map (fun r => r.url)).Nodup

instance (table : List CacheRow) : Decidable (cache_urls_nodup table) := by
  unfold cache_urls_nodup; infer_instance

/-- CacheManager.get_cached_scrape (lines 346-356): SELECT the row for the
url whose cache_valid_until is strictly in the future and whose status is
success; fetchone on the result.  The function reads only the table: it never
consults the filesystem. -/
def get_cached_scrape (table : List CacheRow) (now : Nat) (url : String) :
    Option CacheRow :=
  (table.filter (fun r =>
    decide (r.url = url ∧ now < r.cache_valid_until ∧ r.status = "success"))).head?

/-- CacheManager.save_scrape (lines 358-393): INSERT ... ON CONFLICT (url)
DO UPDATE overwriting every field; cache_valid_until is the save time plus
the configured TTL in days.  (last_scraped_at is CURRENT_TIMESTAMP and
cache_valid_until comes from datetime.now(); both are the single clock
value now here.) -/
def save_scrape (table : List CacheRow) (now : Nat) (cache_ttl_days : Nat)
    (url dealership_name inventory_path tools_path : String)
    (vehicle_count tools_count : Nat) (status : String)
    (error_message : Option String) : List CacheRow :=
  let newRow : CacheRow :=
    { url := url
      dealership_name := dealership_name
      last_scraped_at := now
      inventory_path := some inventory_path
      tools_path := some tools_path
      vehicle_count := vehicle_count
      tools_count := tools_count
      status := status
      error_message := error_message
      cache_valid_until := now + cache_ttl_days * 86400 }
  if table.any (fun r => r.url == url) then
    table.map (fun r => if r.url = url then newRow else r)
  else
    table ++ [newRow]

/-- CacheManager.cleanup_expired (lines 395-402): DELETE every row whose
cache_valid_until is in the past; return the number of deleted rows. -/
def cleanup_expired (table : List CacheRow) (now : Nat) : Nat × List CacheRow :=
  let remaining := table.filter (fun r => !(decide (r.cache_valid_until < now)))
  (table.length - remaining.length, remaining)

/-- The columns of a jobs row that the cleanup subsystem reads
(CleanupManager.cleanup_old_jobs selects job_id and data_folder and filters
on created_at and status). -/
structure CleanupJobRow where
  job_id : String
  status : String
  created_at : Nat
  data_folder : Option String
deriving DecidableEq, Repr

/-- A job_competitors row as the cleanup subsystem sees it: only the owning
job_id matters for the ON DELETE CASCADE. -/
structure JobCompetitorRef where
  job_id : String
  competitor_url : String
deriving DecidableEq, Repr

/-- The durable state the cleanup script operates on: the three tables plus
the set of data folders that exist on disk. -/
structure DbState where
  jobs : List CleanupJobRow
  job_competitors : List JobCompetitorRef
  scraped_sites : List CacheRow
  folders : List String
deriving DecidableEq, Repr

/-- Terminal job statuses, as the SQL status IN ('completed', 'failed'). -/
def is_terminal (s : String) : Bool := s == "completed" || s == "failed"

/-- CleanupManager.cleanup_old_jobs (src/database/postgres_models.py lines
412-434): select the terminal jobs created before now minus the retention
window, then DELETE them (the CASCADE also removes their job_competitors
rows).  Returns the count and the selected rows.  Note the function takes no
dry-run flag: it always deletes. -/
def cleanup_old_jobs (db : DbState) (now retention_days : Nat) :
    (Nat × List CleanupJobRow) × DbState :=
  let cutoff := now - retention_days * 86400
  let old_jobs := db.jobs.filter (fun j =>
    decide (j.created_at < cutoff) && is_terminal j.status)
  if old_jobs.isEmpty then ((0, []), db)
  else
    ((old_jobs.length, old_jobs),
     { db with
       jobs := db.jobs.filter (fun j =>
         !(decide (j.created_at < cutoff) && is_terminal j.status))
       job_competitors := db.job_competitors.filter (fun c =>
         !(old_jobs.any (fun j => j.job_id == c.job_id))) })

/-- cleanup_data_folders (src/scripts/cleanup_old_data_postgres.py lines
19-64): walk the selected jobs; a job without a data_folder or whose folder
does not exist on disk is skipped; in dry-run mode the folder is only
reported; otherwise it is removed and counted. -/
def cleanup_data_folders (old_jobs : List CleanupJobRow) (dry_run : Bool)
    (folders : List String) : Nat × List String :=
  old_jobs.foldl
    (fun acc j =>
      match j.data_folder with
      | none => acc
      | some f =>
        if f ∈ acc.2 then
          if dry_run then acc
          else (acc.1 + 1, acc.2.filter (fun x => !(x == f)))
        else acc)
    (0, folders)

/-- run_cleanup (src/scripts/cleanup_old_data_postgres.py lines 67-154).
Returns the final state together with the reported job count and the
reported expired-cache count.  Faithful to the source: unless cache_only is
set, CleanupManager.cleanup_old_jobs is invoked BEFORE the dry_run flag is
consulted, so the job and competitor rows are deleted from the database even
in dry-run mode; the dry_run flag only suppresses folder removal and the
cache sweep. -/
def run_cleanup (db : DbState) (now : Nat) (retention_days : Nat)
    (dry_run cache_only jobs_only : Bool) : DbState × Nat × Nat :=
  let jobsPhase : DbState × Nat :=
    if cache_only then (db, 0)
    else
      let r := cleanup_old_jobs db now retention_days
      let count := r.1.1
      let old_jobs := r.1.2
      let db1 := r.2
      if count = 0 then (db1, 0)
      else
        let folders2 := (cleanup_data_folders old_jobs dry_run db1.folders).2
        ({ db1 with folders := folders2 }, count)
  let db1 := jobsPhase.1
  let cachePhase : DbState × Nat :=
    if jobs_only then (db1, 0)
    else
      if dry_run then
        (db1, (db1.scraped_sites.filter (fun r =>
          decide (r.cache_valid_until < now))).length)
      else
        let r := cleanup_expired db1.scraped_sites now
        ({ db1 with scraped_sites := r.2 }, r.1)
  (cachePhase.1, jobsPhase.2, cachePhase.2)

/-! Helper lemmas about the cache table. -/

/-- When every element satisfying p has the key url and the keys of the table
are pairwise distinct, filtering by p yields exactly the one matching row. -/
theorem filter_eq_singleton_of_nodup_key (p : CacheRow → Bool) (url : String)
    (hkey : ∀ x, p x = true → x.url = url) :
    ∀ (table : List CacheRow), (table.map (fun r => r.url)).Nodup →
      ∀ r ∈ table, p r = true → table.filter p = [r] := by
  intro table
  induction table with
  | nil => intro _ r hr; exact absurd hr (List.not_mem_nil r)
  | cons a t ih =>
    intro hnd r hr hpr
    rw [List.map_cons, List.nodup_cons] at hnd
    rcases List.mem_cons.mp hr with rfl | hrt
    · rw [List.filter_cons_of_pos hpr]
      have ht : t.filter p = [] := by
        rw [List.filter_eq_nil_iff]
        intro x hx hpx
        exact hnd.1 ((hkey x hpx).trans (hkey r hpr).symm ▸ List.mem_map_of_mem _ hx)
      rw [ht]
    · have hpa : p a = false := by
        cases hpA : p a with
        | false => rfl
        | true =>
          exact absurd ((hkey a hpA).trans (hkey r hpr).symm ▸ List.mem_map_of_mem (fun x => x.url) hrt) hnd.1
      rw [List.filter_cons_of_neg (by simp [hpa]), ih hnd.2 r hrt hpr]

/-- Replacing the rows whose url matches by a new row carrying the same url
leaves the list of urls unchanged. -/
theorem map_url_replace (url : String) (newRow : CacheRow) (h : newRow.url = url) :
    ∀ table : List CacheRow,
      (table.map (fun r => if r.url = url then newRow else r)).map (fun r => r.url) =
        table.map (fun r => r.url) := by
  intro table
  induction table with
  | nil => rfl
  | cons a t ih =>
    simp only [List.map_cons, ih]
    by_cases ha : a.url = url
    · rw [if_pos ha, h, ha]
    · rw [if_neg ha]

/-! Claim theorems for the storage layer. -/

/-- Fixed job row used for the C2 failing-input evaluation: a job with
total_steps = 7 and completed_steps = 0. -/
def c2_row : JobRow :=
  { status := "processing", progress_percentage := some 0, current_step := none,
    total_steps := 7, completed_steps := 0, error_message := none,
    created_at := 0, updated_at := 0, started_at := none, completed_at := none }

/-- C2 (code bug, evaluation at the failing input): after
update_progress(job, 1) on a job with total_steps = 7 and previous
completed_steps = 0, the stored completed_steps is 1 but the stored
progress_percentage is 0, computed from the previous completed_steps value
(PostgreSQL SET expressions read the old row), not the 14 percent the claim
requires from the newly supplied value. -/
theorem C2_update_progress_stale_percentage :
    (update_progress c2_row 10 1).completed_steps = 1 ∧
    (update_progress c2_row 10 1).progress_percentage = some 0 ∧
    ¬ (update_progress c2_row 10 1).progress_percentage =
        some (pg_round (1 * 100) c2_row.total_steps) := by
  decide

/-- Fixed job row used for the C6 counterexample: a queued job whose
started_at is still NULL. -/
def c6_row : JobRow :=
  { status := "queued", progress_percentage := some 0, current_step := none,
    total_steps := 5, completed_steps := 0, error_message := none,
    created_at := 0, updated_at := 0, started_at := none, completed_at := none }

/-- C6 counterexample: calling update_status with status processing but
without a current_step leaves a NULL started_at NULL, against the claim that
started_at is set regardless of whether current_step is supplied. -/
theorem C6_counterexample_started_at_not_set :
    (update_status c6_row 5 "processing" none none).status = "processing" ∧
    c6_row.started_at = none ∧
    (update_status c6_row 5 "processing" none none).started_at = none := by
  decide

/-- C6 (amended): every update_status call sets updated_at; a call with
status completed or failed sets completed_at; a call with status processing
sets started_at once (COALESCE keeps an existing value) but ONLY when a
truthy current_step is also supplied; without one started_at is untouched;
and a non-NULL started_at is never overwritten by any call. -/
theorem C6_update_status_timestamps (row : JobRow) (now : Nat) (status : String)
    (cs em : Option String) :
    (update_status row now status cs em).updated_at = now ∧
    ((status = "completed" ∨ status = "failed") →
      (update_status row now status cs em).completed_at = some now) ∧
    (status = "processing" → py_truthy cs = true →
      (update_status row now status cs em).started_at = some (row.started_at.getD now)) ∧
    (status = "processing" → py_truthy cs = false →
      (update_status row now status cs em).started_at = row.started_at) ∧
    (∀ t, row.started_at = some t →
      (update_status row now status cs em).started_at = some t) := by
  unfold update_status
  refine ⟨rfl, ?_, ?_, ?_, ?_⟩
  · intro h
    simp only [if_pos h]
  · intro h1 h2
    simp only [if_pos (And.intro h1 h2)]
  · intro h1 h2
    have hc : ¬ (status = "processing" ∧ py_truthy cs = true) := by simp [h2]
    simp only [if_neg hc]
  · intro t ht
    by_cases hc : status = "processing" ∧ py_truthy cs = true
    · simp only [if_pos hc, ht, Option.getD_some]
    · simp only [if_neg hc, ht]

/-- C6 witness: at a concrete queued row, a processing update carrying a
current_step stamps started_at, and a completed update stamps completed_at. -/
theorem C6_witness :
    (update_status c6_row 5 "processing" (some "Starting") none).started_at = some 5 ∧
    (update_status c6_row 9 "completed" none none).completed_at = some 9 := by
  constructor
  · have h := C6_update_status_timestamps c6_row 5 "processing" (some "Starting") none
    simpa [c6_row] using h.2.2.1 rfl (by decide)
  · exact (C6_update_status_timestamps c6_row 9 "completed" none none).2.1 (Or.inl rfl)

/-- C7: on a table whose urls are pairwise distinct (the UNIQUE constraint),
get_cached_scrape returns a stored entry exactly when that entry is in the
table under the requested url with cache_valid_until strictly in the future
and status success; in every other situation, including an expired
success-entry, it reports a miss.  The function is defined on the table
alone, so it cannot consult the filesystem. -/
theorem C7_get_cached_scrape_hit_iff (table : List CacheRow) (now : Nat)
    (url : String) (r : CacheRow) (h : cache_urls_nodup table) :
    get_cached_scrape table now url = some r ↔
      (r ∈ table ∧ r.url = url ∧ now < r.cache_valid_until ∧ r.status = "success") := by
  unfold get_cached_scrape
  constructor
  · intro hsome
    match hl : table.filter (fun r =>
        decide (r.url = url ∧ now < r.cache_valid_until ∧ r.status = "success")) with
    | [] => rw [hl] at hsome; exact absurd hsome (by simp)
    | x :: xs =>
      rw [hl] at hsome
      simp only [List.head?_cons, Option.some.injEq] at hsome
      have hxmem : r ∈ table.filter (fun r =>
          decide (r.url = url ∧ now < r.cache_valid_until ∧ r.status = "success")) := by
        rw [hl, ← hsome]
        exact List.mem_cons_self x xs
      have := List.mem_filter.mp hxmem
      refine ⟨this.1, ?_⟩
      simpa using this.2
  · rintro ⟨hmem, hurl, hvalid, hstat⟩
    rw [filter_eq_singleton_of_nodup_key _ url
      (fun x hx => (of_decide_eq_true hx).1) table h r hmem
      (decide_eq_true ⟨hurl, hvalid, hstat⟩)]
    rfl

/-- Fixed cache row used by the C7 witness. -/
def c7_row : CacheRow :=
  { url := "https://a.example", dealership_name := "A", last_scraped_at := 100,
    inventory_path := some "inv.json", tools_path := some "tools.json",
    vehicle_count := 3, tools_count := 2, status := "success",
    error_message := none, cache_valid_until := 700000 }

/-- C7 witness: a fresh success entry is returned as a hit. -/
theorem C7_witness :
    get_cached_scrape [c7_row] 100 "https://a.example" = some c7_row :=
  (C7_get_cached_scrape_hit_iff [c7_row] 100 "https://a.example" c7_row
    (by decide)).mpr ⟨List.mem_singleton_self c7_row, rfl, by decide, rfl⟩

/-- C8: on a table whose urls are pairwise distinct, save_scrape preserves
that uniqueness, and afterwards the rows under the saved url are exactly the
single row holding the supplied fields, with last_scraped_at the save time
and cache_valid_until the save time plus the TTL window — so a second save
for the same url overwrites every field and resets the TTL. -/
theorem C8_save_scrape_upsert (table : List CacheRow) (now ttl : Nat)
    (url name inv tools : String) (veh tc : Nat) (status : String)
    (em : Option String) (h : cache_urls_nodup table) :
    cache_urls_nodup (save_scrape table now ttl url name inv tools veh tc status em) ∧
    (save_scrape table now ttl url name inv tools veh tc status em).filter
        (fun r => r.url == url) =
      [{ url := url, dealership_name := name, last_scraped_at := now,
         inventory_path := some inv, tools_path := some tools,
         vehicle_count := veh, tools_count := tc, status := status,
         error_message := em, cache_valid_until := now + ttl * 86400 }] := by
  unfold save_scrape cache_urls_nodup
  unfold cache_urls_nodup at h
  by_cases hany : table.any (fun r => r.url == url) = true
  · simp only [hany, if_true]
    constructor
    · rw [map_url_replace url _ rfl table]
      exact h
    · obtain ⟨a, hamem, haurl⟩ := List.any_eq_true.mp hany
      apply filter_eq_singleton_of_nodup_key _ url
        (fun x hx => by simpa using hx)
      · rw [map_url_replace url _ rfl table]; exact h
      · refine List.mem_map.mpr ⟨a, hamem, ?_⟩
        rw [if_pos (by simpa using haurl)]
      · simp
  · simp only [hany, if_false, Bool.false_eq_true]
    have hnone : ∀ x ∈ table, ¬ x.url = url := by
      intro x hx hxe
      exact hany (List.any_eq_true.mpr ⟨x, hx, by simpa using hxe⟩)
    constructor
    · rw [List.map_append, List.nodup_append]
      refine ⟨h, by simp, ?_⟩
      intro u hu hu2
      simp only [List.mem_map] at hu
      obtain ⟨x, hx, rfl⟩ := hu
      simp only [List.map_cons, List.map_nil, List.mem_singleton] at hu2
      exact hnone x hx hu2
    · rw [List.filter_append]
      have h1 : table.filter (fun r => r.url == url) = [] := by
        rw [List.filter_eq_nil_iff]
        intro x hx
        simpa using hnone x hx
      rw [h1, List.nil_append, List.filter_cons_of_pos (by simp), List.filter_nil]

/-- C8 witness: saving into an empty (vacuously unique) table leaves exactly
the one saved row. -/
theorem C8_witness :
    (save_scrape [] 50 7 "https://b.example" "B" "i.json" "t.json" 4 1 "success"
        none).filter (fun r => r.url == "https://b.example") =
      [{ url := "https://b.example", dealership_name := "B", last_scraped_at := 50,
         inventory_path := some "i.json", tools_path := some "t.json",
         vehicle_count := 4, tools_count := 1, status := "success",
         error_message := none, cache_valid_until := 50 + 7 * 86400 }] :=
  (C8_save_scrape_upsert [] 50 7 "https://b.example" "B" "i.json" "t.json" 4 1
    "success" none (by decide)).2

/-- Fixed database state used for the C1 failing-input evaluation: one
completed job created at time 0 with a live data folder and one competitor
row, observed 10 days later with a 7 day retention window. -/
def c1_db : DbState :=
  { jobs := [{ job_id := "job_a", status := "completed", created_at := 0,
               data_folder := some "data/jobs/job_a" }]
    job_competitors := [{ job_id := "job_a", competitor_url := "https://x.example" }]
    scraped_sites := []
    folders := ["data/jobs/job_a"] }

/-- C1 (code bug, evaluation at the failing input): a cleanup run with
dry_run = true still deletes the old terminal job row and, by cascade, its
competitor row, because run_cleanup invokes CleanupManager.cleanup_old_jobs
— which always deletes — before ever consulting the dry_run flag; only the
data folder (and the cache sweep) are actually guarded by dry_run. -/
theorem C1_dry_run_still_deletes_rows :
    (run_cleanup c1_db 864000 7 true false false).1.jobs = [] ∧
    (run_cleanup c1_db 864000 7 true false false).1.job_competitors = [] ∧
    (run_cleanup c1_db 864000 7 true false false).1.folders = ["data/jobs/job_a"] ∧
    (run_cleanup c1_db 864000 7 true false false).1.scraped_sites = [] ∧
    c1_db.jobs.length = 1 ∧ c1_db.job_competitors.length = 1 := by
  decide

/-!
Embedding of the orchestrator
(src/orchestrator/job_processor_postgres.py, JobProcessorPostgres.process_job).

The external collaborators are abstracted into an environment of outcome
functions: whether phase 1 raises while saving the client inventory or tools
payloads, whether the cache lookup for a competitor produces a usable hit
(valid, success, and with both artifact files still present on disk), whether
the scraper subprocess attempt number a for competitor number i succeeds,
whether the analysis subprocess raises, and whether email attempt number a
succeeds.  Artifact file paths are abstracted to strings derived from the
competitor name; the save_scrape call made after a successful scrape touches
only the cache table and is not threaded through this state. -/
structure Env where
  inventoryError : Option String
  toolsError : Option String
  cacheValid : Nat → Bool
  scrapeOk : Nat → Nat → Bool
  analysisError : Option String
  emailOk : Nat → Bool

/-- One entry of the competitor_urls list handed to
JobManager.create_job. -/
structure CompetitorInit where
  url : String
  name : String
deriving DecidableEq, Repr

/-- One row of the job_competitors table for the job being processed
(schema at lines 165-177). -/
structure CompetitorRow where
  competitor_url : String
  competitor_name : String
  status : String
  inventory_path : Option String
  tools_path : Option String
  error_message : Option String
  scraped_at : Option Nat
deriving DecidableEq, Repr

/-- JobManager.update_competitor_status (src/database/postgres_models.py
lines 306-325): UPDATE every row of this job matching the competitor url;
paths use COALESCE (a NULL argument preserves the stored value),
error_message is overwritten unconditionally, and scraped_at is stamped only
when the new status is completed. -/
def update_competitor_status (rows : List CompetitorRow) (now : Nat)
    (url status : String)
    (inventory_path tools_path error_message : Option String) :
    List CompetitorRow :=
  rows.map (fun r =>
    if r.competitor_url = url then
      { r with
        status := status
        inventory_path := if inventory_path.isSome then inventory_path else r.inventory_path
        tools_path := if tools_path.isSome then tools_path else r.tools_path
        error_message := error_message
        scraped_at := if status = "completed" then some now else r.scraped_at }
    else r)

/-- The observable state threaded through process_job: the persisted job row,
the persisted competitor rows, the trace of job-row snapshots after every
persisted status or progress update, a logical clock, the Python local
variables completed_steps / len(competitors_data) / failed_competitors, and
instrumentation recording which competitor indices the loop body reached,
whether the analysis and email phases were invoked, how many email attempts
were made, whether the finalize phase ran, and the value of completed_steps
right after the competitor loop finished without aborting. -/
structure OState where
  job : JobRow
  comps : List CompetitorRow
  trace : List JobRow
  now : Nat
  steps : Nat
  succCount : Nat
  failedCount : Nat
  attempted : List Nat
  analysisRan : Bool
  emailAttempts : Nat
  finalizeRan : Bool
  stepsAfterLoop : Option Nat

/-- A call to JobManager.update_status: the new job row is persisted and
appears in the trace. -/
def pushStatus (st : OState) (status : String) (cs em : Option String) : OState :=
  let j := update_status st.job st.now status cs em
  { st with job := j, trace := st.trace ++ [j], now := st.now + 1 }

/-- A call to JobManager.update_progress: the new job row is persisted and
appears in the trace. -/
def pushProgress (st : OState) (n : Nat) : OState :=
  let j := update_progress st.job st.now n
  { st with job := j, trace := st.trace ++ [j], now := st.now + 1 }

/-- The Python pair completed_steps += 1; update_progress(job_id,
completed_steps). -/
def incProgress (st : OState) : OState :=
  pushProgress { st with steps := st.steps + 1 } (st.steps + 1)

/-- A call to JobManager.update_competitor_status on the rows of this job. -/
def updComp (st : OState) (url status : String) (inv tools err : Option String) :
    OState :=
  { st with
    comps := update_competitor_status st.comps st.now url status inv tools err
    now := st.now + 1 }

/-- The first attempt number in 1..maxRetries on which the outcome function
reports success, if any: the retry loops in process_job stop at the first
success and give up after maxRetries attempts. -/
def firstSuccess (ok : Nat → Bool) (maxRetries : Nat) : Option Nat :=
  ((List.range' 1 maxRetries).filter ok).head?

/-- Competitor number idx gets resolved successfully: a usable cache hit, or
some scrape attempt within the retry budget succeeds. -/
def resolves (env : Env) (maxScr idx : Nat) : Bool :=
  env.cacheValid idx || (firstSuccess (env.scrapeOk idx) maxScr).isSome

/-- Competitor number idx fails permanently: no usable cache hit and every
scrape attempt in the budget fails. -/
def failsB (env : Env) (maxScr : Nat) (idx : Nat) : Bool :=
  !(resolves env maxScr idx)

/-- The fixed error message of the competitor abort path. -/
def abortCompMsg : String := "Job aborted due to multiple failures"

/-- Marking every remaining (not yet attempted) competitor aborted: the for
loop over job.competitors i onward in the abort branch. -/
def abortRemaining (rest : List CompetitorInit) (st : OState) : OState :=
  rest.foldl (fun s c => updComp s c.url "aborted" none none (some abortCompMsg)) st

/-- Phase 2 of process_job (lines 216-338): resolve each competitor in list
order, sequentially.  idx is the 0-based position in the full competitor
list.  Per competitor: a usable cache hit marks the row completed and counts
a success; otherwise scrape attempts run up to the retry budget; exhaustion
marks the row failed and bumps the failure counter, and the moment that
counter reaches 2 every remaining competitor row is set to aborted, the job
is set to failed, and the loop stops (returning true for aborted).  Each
competitor resolved without triggering the abort is followed by a progress
increment; the abort path returns before the increment of its trigger. -/
def compLoop (env : Env) (maxScr : Nat) :
    List CompetitorInit → Nat → OState → Bool × OState
  | [], _, st => (false, st)
  | c :: rest, idx, st =>
    let st1 := { st with attempted := st.attempted ++ [idx] }
    if env.cacheValid idx then
      let st2 := updComp st1 c.url "completed"
        (some (c.name ++ "_inventory.json")) (some (c.name ++ "_tools.json")) none
      let st3 := incProgress { st2 with succCount := st2.succCount + 1 }
      compLoop env maxScr rest (idx + 1) st3
    else
      match firstSuccess (env.scrapeOk idx) maxScr with
      | some _ =>
        let st2 := updComp st1 c.url "completed"
          (some (c.name ++ "_inventory.json")) (some (c.name ++ "_tools.json")) none
        let st3 := incProgress { st2 with succCount := st2.succCount + 1 }
        compLoop env maxScr rest (idx + 1) st3
      | none =>
        let st2 := { st1 with failedCount := st1.failedCount + 1 }
        let st3 := updComp st2 c.url "failed" none none
          (some ("Scraping failed after " ++ toString maxScr ++ " retries"))
        if 2 ≤ st3.failedCount then
          let st4 := abortRemaining rest st3
          (true, pushStatus st4 "failed" none
            (some ("Aborting: " ++ toString st3.failedCount ++
              " competitors failed (threshold: 2)")))
        else
          compLoop env maxScr rest (idx + 1) (incProgress st3)

/-- JobManager.create_job, jobs side (lines 192-218): a queued row with
total_steps = 2 + number of competitors + 2. -/
def create_job_row (competitor_count : Nat) (t0 : Nat) : JobRow :=
  { status := "queued", progress_percentage := some 0, current_step := none,
    total_steps := 2 + competitor_count + 2, completed_steps := 0,
    error_message := none, created_at := t0, updated_at := t0,
    started_at := none, completed_at := none }

/-- The pending job_competitors row JobManager.create_job inserts for one
competitor. -/
def pending_row (c : CompetitorInit) : CompetitorRow :=
  { competitor_url := c.url, competitor_name := c.name, status := "pending",
    inventory_path := none, tools_path := none, error_message := none,
    scraped_at := none }

/-- JobManager.create_job, competitors side (lines 220-225): one pending row
per competitor, in list order. -/
def create_competitor_rows (comps : List CompetitorInit) : List CompetitorRow :=
  comps.map pending_row

/-- The observable state after the two initial update_status calls of
process_job on a freshly created job (lines 133-166): the job row created by
JobManager.create_job, marked processing with current_step Starting and then
Saving client data. -/
def start_state (comps : List CompetitorInit) (t0 : Nat) : OState :=
  pushStatus (pushStatus
    { job := create_job_row comps.length t0
      comps := create_competitor_rows comps
      trace := [], now := t0 + 1, steps := 0, succCount := 0, failedCount := 0
      attempted := [], analysisRan := false, emailAttempts := 0
      finalizeRan := false, stepsAfterLoop := none }
    "processing" (some "Starting") none)
    "processing" (some "Saving client data") none

/-- Phases 3 to 5 of process_job (lines 340-434), applied to the outcome of
the competitor loop: an aborted loop returns immediately; zero successes
fail the job; the analysis collaborator runs (a raise fails the job); the
email collaborator is retried up to maxEmail times (exhaustion fails the
job); finally the job is marked completed. -/
def post_loop (env : Env) (maxEmail : Nat) (loopRes : Bool × OState) :
    Bool × OState :=
  if loopRes.1 then (false, loopRes.2)
  else
  let st4 := { loopRes.2 with stepsAfterLoop := some loopRes.2.steps }
  if st4.succCount = 0 then
    (false, pushStatus st4 "failed" none (some "No competitors scraped successfully"))
  else
  let st5 := pushStatus st4 "processing" (some "Running analysis") none
  let st6 := { st5 with analysisRan := true }
  match env.analysisError with
  | some e => (false, pushStatus st6 "failed" none (some ("Analysis failed: " ++ e)))
  | none =>
  let st7 := incProgress st6
  let st8 := pushStatus st7 "processing" (some "Sending email") none
  match firstSuccess env.emailOk maxEmail with
  | none =>
    (false, pushStatus { st8 with emailAttempts := maxEmail } "failed" none
      (some ("Email failed after " ++ toString maxEmail ++ " retries")))
  | some a =>
  let st9 := incProgress { st8 with emailAttempts := a }
  let st10 := pushStatus st9 "completed" (some "Completed") none
  (true, incProgress { st10 with finalizeRan := true })

/-- JobProcessorPostgres.process_job (lines 117-434) on a freshly created job
whose competitor list is comps: mark processing; phase 1 saves the client
payloads (either write raising fails the job); on success a progress of 1 is
persisted and phase 2 — the competitor loop — runs, followed by the
remaining phases of post_loop.  Returns the Python return value together
with the final observable state. -/
def process_job (env : Env) (maxScr maxEmail : Nat) (comps : List CompetitorInit)
    (t0 : Nat) : Bool × OState :=
  let st2 := start_state comps t0
  match env.inventoryError with
  | some e => (false, pushStatus st2 "failed" none (some ("Inventory data error: " ++ e)))
  | none =>
  match env.toolsError with
  | some e => (false, pushStatus st2 "failed" none (some ("Tools data error: " ++ e)))
  | none => post_loop env maxEmail (compLoop env maxScr comps 0 (incProgress st2))

/-- Position of the n-th permanent failure: scanning indices from idx along
the remaining competitor list, the index at which the job-local failure
counter would reach its threshold.  nthFailIdx fails 2 0 comps = some k says
the abort rule fires while processing the competitor at 0-based position
k. -/
def nthFailIdx (fails : Nat → Bool) : Nat → Nat → List CompetitorInit → Option Nat
  | _, _, [] => none
  | n, idx, _ :: cs =>
    if fails idx then
      if n = 1 then some idx else nthFailIdx fails (n - 1) (idx + 1) cs
    else nthFailIdx fails n (idx + 1) cs

/-! Frame lemmas about the orchestrator state operations. -/

theorem nthFailIdx_ge (fails : Nat → Bool) :
    ∀ (cs : List CompetitorInit) (n idx k : Nat),
      nthFailIdx fails n idx cs = some k → idx ≤ k := by
  intro cs
  induction cs with
  | nil => intro n idx k h; exact absurd h (by simp [nthFailIdx])
  | cons c rest ih =>
    intro n idx k h
    rw [nthFailIdx] at h
    by_cases hf : fails idx = true
    · rw [if_pos hf] at h
      by_cases hn : n = 1
      · rw [if_pos hn] at h
        exact Nat.le_of_eq (Option.some.inj h)
      · rw [if_neg hn] at h
        have := ih (n - 1) (idx + 1) k h
        omega
    · rw [if_neg hf] at h
      have := ih n (idx + 1) k h
      omega

/-- The positional view of update_competitor_status: position i is
transformed pointwise. -/
theorem update_competitor_status_getElem (rows : List CompetitorRow) (now : Nat)
    (url status : String) (inv tools err : Option String) (i : Nat) :
    (update_competitor_status rows now url status inv tools err)[i]? =
      (rows[i]?).map (fun r =>
        if r.competitor_url = url then
          { r with
            status := status
            inventory_path := if inv.isSome then inv else r.inventory_path
            tools_path := if tools.isSome then tools else r.tools_path
            error_message := err
            scraped_at := if status = "completed" then some now else r.scraped_at }
        else r) := by
  unfold update_competitor_status
  exact List.getElem?_map _ _ _

/-- All state fields other than comps and now are preserved by
abortRemaining. -/
theorem abortRemaining_fields : ∀ (rest : List CompetitorInit) (st : OState),
    (abortRemaining rest st).job = st.job ∧
    (abortRemaining rest st).trace = st.trace ∧
    (abortRemaining rest st).steps = st.steps ∧
    (abortRemaining rest st).succCount = st.succCount ∧
    (abortRemaining rest st).failedCount = st.failedCount ∧
    (abortRemaining rest st).attempted = st.attempted ∧
    (abortRemaining rest st).analysisRan = st.analysisRan ∧
    (abortRemaining rest st).emailAttempts = st.emailAttempts ∧
    (abortRemaining rest st).finalizeRan = st.finalizeRan ∧
    (abortRemaining rest st).stepsAfterLoop = st.stepsAfterLoop := by
  intro rest
  induction rest with
  | nil => intro st; exact ⟨rfl, rfl, rfl, rfl, rfl, rfl, rfl, rfl, rfl, rfl⟩
  | cons c rest ih =>
    intro st
    exact ih (updComp st c.url "aborted" none none (some abortCompMsg))

/-- A row whose url is not among the remaining competitors is untouched by
abortRemaining. -/
theorem abortRemaining_comps_frame : ∀ (rest : List CompetitorInit) (st : OState)
    (i : Nat) (r : CompetitorRow), st.comps[i]? = some r →
    r.competitor_url ∉ rest.map (fun c => c.url) →
    (abortRemaining rest st).comps[i]? = some r := by
  intro rest
  induction rest with
  | nil => intro st i r hr _; exact hr
  | cons c rest ih =>
    intro st i r hr hmem
    simp only [List.map_cons, List.mem_cons, not_or] at hmem
    apply ih _ i r _ hmem.2
    show (updComp st c.url "aborted" none none (some abortCompMsg)).comps[i]? = some r
    unfold updComp
    rw [update_competitor_status_getElem, hr]
    simp only [Option.map_some']
    rw [if_neg hmem.1]

/-- A row whose url is among the remaining competitors is set to aborted with
the fixed reason by abortRemaining; its paths and scrape timestamp are
preserved. -/
theorem abortRemaining_comps_abort : ∀ (rest : List CompetitorInit) (st : OState)
    (i : Nat) (r : CompetitorRow), st.comps[i]? = some r →
    r.competitor_url ∈ rest.map (fun c => c.url) →
    (abortRemaining rest st).comps[i]? =
      some { r with status := "aborted", error_message := some abortCompMsg } := by
  intro rest
  induction rest with
  | nil => intro st i r _ hmem; exact absurd hmem (by simp)
  | cons c rest ih =>
    intro st i r hr hmem
    by_cases hcu : r.competitor_url = c.url
    · have hstep : (updComp st c.url "aborted" none none (some abortCompMsg)).comps[i]? =
          some { r with status := "aborted", error_message := some abortCompMsg } := by
        unfold updComp
        rw [update_competitor_status_getElem, hr]
        simp only [Option.map_some']
        rw [if_pos hcu]
        rfl
      by_cases hrest : r.competitor_url ∈ rest.map (fun c => c.url)
      · have := ih (updComp st c.url "aborted" none none (some abortCompMsg)) i
          { r with status := "aborted", error_message := some abortCompMsg } hstep
          (by simpa using hrest)
        simpa using this
      · exact abortRemaining_comps_frame rest _ i _ hstep (by simpa using hrest)
    · simp only [List.map_cons, List.mem_cons] at hmem
      rcases hmem with h | h
      · exact absurd h hcu
      · apply ih _ i r _ h
        show (updComp st c.url "aborted" none none (some abortCompMsg)).comps[i]? = some r
        unfold updComp
        rw [update_competitor_status_getElem, hr]
        simp only [Option.map_some']
        rw [if_neg hcu]

/-- A row whose url is not among the competitors the loop still has to
process is untouched by the loop. -/
theorem compLoop_comps_frame (env : Env) (maxScr : Nat) :
    ∀ (cs : List CompetitorInit) (idx : Nat) (st : OState) (i : Nat)
      (r : CompetitorRow), st.comps[i]? = some r →
      r.competitor_url ∉ cs.map (fun c => c.url) →
      (compLoop env maxScr cs idx st).2.comps[i]? = some r := by
  intro cs
  induction cs with
  | nil => intro idx st i r hr _; exact hr
  | cons c rest ih =>
    intro idx st i r hr hmem
    simp only [List.map_cons, List.mem_cons, not_or] at hmem
    have hstep : ∀ (status : String) (inv tools err : Option String) (st1 : OState),
        st1.comps = st.comps →
        (updComp st1 c.url status inv tools err).comps[i]? = some r := by
      intro status inv tools err st1 hcomps
      unfold updComp
      rw [hcomps, update_competitor_status_getElem, hr]
      simp only [Option.map_some']
      rw [if_neg hmem.1]
    rw [compLoop]
    by_cases hc : env.cacheValid idx = true
    · rw [if_pos hc]
      apply ih (idx + 1) _ i r _ hmem.2
      exact hstep "completed" _ _ _ _ rfl
    · rw [if_neg hc]
      cases hs : firstSuccess (env.scrapeOk idx) maxScr with
      | some a =>
        apply ih (idx + 1) _ i r _ hmem.2
        exact hstep "completed" _ _ _ _ rfl
      | none =>
        by_cases habort : 2 ≤ st.failedCount + 1
        · rw [if_pos (by simpa [updComp] using habort)]
          show (pushStatus _ "failed" none _).comps[i]? = some r
          unfold pushStatus
          apply abortRemaining_comps_frame rest _ i r _ hmem.2
          exact hstep "failed" _ _ _ _ rfl
        · rw [if_neg (by simpa [updComp] using habort)]
          apply ih (idx + 1) _ i r _ hmem.2
          exact hstep "failed" _ _ _ _ rfl

/-- Bounds maintained by the competitor loop: the step counter grows by at
most one per competitor, the persisted completed_steps never exceeds the
step counter, total_steps is never written, and every job-row snapshot the
loop appends to the trace carries a completed_steps within the same bound
and the untouched total_steps. -/
theorem compLoop_bound (env : Env) (maxScr : Nat) :
    ∀ (cs : List CompetitorInit) (idx : Nat) (st : OState),
      st.job.completed_steps ≤ st.steps →
      (compLoop env maxScr cs idx st).2.steps ≤ st.steps + cs.length ∧
      (compLoop env maxScr cs idx st).2.job.total_steps = st.job.total_steps ∧
      (compLoop env maxScr cs idx st).2.job.completed_steps ≤
        (compLoop env maxScr cs idx st).2.steps ∧
      (∀ j ∈ (compLoop env maxScr cs idx st).2.trace,
        j ∈ st.trace ∨
          (j.completed_steps ≤ st.steps + cs.length ∧
            j.total_steps = st.job.total_steps)) := by
  intro cs
  induction cs with
  | nil =>
    intro idx st hsync
    refine ⟨by simp [compLoop], rfl, hsync, ?_⟩
    intro j hj
    exact Or.inl hj
  | cons c rest ih =>
    intro idx st hsync
    rw [compLoop]
    by_cases hc : env.cacheValid idx = true
    · rw [if_pos hc]
      have hstep := ih (idx + 1)
        (incProgress { (updComp { st with attempted := st.attempted ++ [idx] }
          c.url "completed" (some (c.name ++ "_inventory.json"))
          (some (c.name ++ "_tools.json")) none) with
            succCount := (updComp { st with attempted := st.attempted ++ [idx] }
              c.url "completed" (some (c.name ++ "_inventory.json"))
              (some (c.name ++ "_tools.json")) none).succCount + 1 })
        (by simp [incProgress, pushProgress, updComp, update_progress])
      refine ⟨?_, ?_, hstep.2.2.1, ?_⟩
      · refine le_trans hstep.1 ?_
        simp [incProgress, pushProgress, updComp]
        omega
      · rw [hstep.2.1]
        simp [incProgress, pushProgress, updComp, update_progress]
      · intro j hj
        rcases hstep.2.2.2 j hj with hin | hb
        · simp only [incProgress, pushProgress, updComp, List.mem_append,
            List.mem_singleton] at hin
          rcases hin with hin | rfl
          · exact Or.inl hin
          · refine Or.inr ⟨?_, ?_⟩
            · simp [update_progress, updComp]
            · simp [update_progress, updComp]
        · refine Or.inr ⟨?_, ?_⟩
          · refine le_trans hb.1 ?_
            simp [incProgress, pushProgress, updComp]
            omega
          · rw [hb.2]
            simp [incProgress, pushProgress, updComp, update_progress]
    · rw [if_neg hc]
      cases hs : firstSuccess (env.scrapeOk idx) maxScr with
      | some a =>
        have hstep := ih (idx + 1)
          (incProgress { (updComp { st with attempted := st.attempted ++ [idx] }
            c.url "completed" (some (c.name ++ "_inventory.json"))
            (some (c.name ++ "_tools.json")) none) with
              succCount := (updComp { st with attempted := st.attempted ++ [idx] }
                c.url "completed" (some (c.name ++ "_inventory.json"))
                (some (c.name ++ "_tools.json")) none).succCount + 1 })
          (by simp [incProgress, pushProgress, updComp, update_progress])
        refine ⟨?_, ?_, hstep.2.2.1, ?_⟩
        · refine le_trans hstep.1 ?_
          simp [incProgress, pushProgress, updComp]
          omega
        · rw [hstep.2.1]
          simp [incProgress, pushProgress, updComp, update_progress]
        · intro j hj
          rcases hstep.2.2.2 j hj with hin | hb
          · simp only [incProgress, pushProgress, updComp, List.mem_append,
              List.mem_singleton] at hin
            rcases hin with hin | rfl
            · exact Or.inl hin
            · refine Or.inr ⟨?_, ?_⟩
              · simp [update_progress, updComp]
              · simp [update_progress, updComp]
          · refine Or.inr ⟨?_, ?_⟩
            · refine le_trans hb.1 ?_
              simp [incProgress, pushProgress, updComp]
              omega
            · rw [hb.2]
              simp [incProgress, pushProgress, updComp, update_progress]
      | none =>
        by_cases habort : 2 ≤ st.failedCount + 1
        · rw [if_pos (by simpa [updComp] using habort)]
          have hF := abortRemaining_fields rest
            (updComp { st with
                attempted := st.attempted ++ [idx]
                failedCount := st.failedCount + 1 }
              c.url "failed" none none
              (some ("Scraping failed after " ++ toString maxScr ++ " retries")))
          refine ⟨?_, ?_, ?_, ?_⟩
          · simp only [pushStatus]
            rw [hF.2.2.1]
            simp [updComp]
          · simp only [pushStatus]
            rw [hF.1]
            simp [update_status, updComp]
          · simp only [pushStatus]
            rw [hF.1, hF.2.2.1]
            simp only [update_status, updComp]
            exact hsync
          · intro j hj
            simp only [pushStatus] at hj
            rw [hF.2.1, hF.1] at hj
            simp only [updComp, List.mem_append, List.mem_singleton] at hj
            rcases hj with hin | rfl
            · exact Or.inl hin
            · refine Or.inr ⟨?_, ?_⟩
              · simp only [update_status]
                calc st.job.completed_steps ≤ st.steps := hsync
                  _ ≤ st.steps + (rest.length + 1) := Nat.le_add_right _ _
              · simp [update_status]
        · rw [if_neg (by simpa [updComp] using habort)]
          have hstep := ih (idx + 1)
            (incProgress (updComp { st with
                attempted := st.attempted ++ [idx]
                failedCount := st.failedCount + 1 }
              c.url "failed" none none
              (some ("Scraping failed after " ++ toString maxScr ++ " retries"))))
            (by simp [incProgress, pushProgress, updComp, update_progress])
          refine ⟨?_, ?_, hstep.2.2.1, ?_⟩
          · refine le_trans hstep.1 ?_
            simp [incProgress, pushProgress, updComp]
            omega
          · rw [hstep.2.1]
            simp [incProgress, pushProgress, updComp, update_progress]
          · intro j hj
            rcases hstep.2.2.2 j hj with hin | hb
            · simp only [incProgress, pushProgress, updComp, List.mem_append,
                List.mem_singleton] at hin
              rcases hin with hin | rfl
              · exact Or.inl hin
              · refine Or.inr ⟨?_, ?_⟩
                · simp [update_progress, updComp]
                · simp [update_progress, updComp]
            · refine Or.inr ⟨?_, ?_⟩
              · refine le_trans hb.1 ?_
                simp [incProgress, pushProgress, updComp]
                omega
              · rw [hb.2]
                simp [incProgress, pushProgress, updComp, update_progress]

/-- Behaviour of the competitor loop when the failure threshold is never
reached (relative to the failures already counted): the loop finishes
without aborting, increments the step counter once per competitor, keeps the
persisted completed_steps in sync, leaves the job status and the phase flags
alone, adds one success per resolving competitor, and (when the urls are
distinct) leaves every row of a processed competitor either completed or
failed. -/
theorem compLoop_complete (env : Env) (maxScr : Nat) :
    ∀ (cs : List CompetitorInit) (idx : Nat) (st : OState),
      nthFailIdx (failsB env maxScr) (2 - st.failedCount) idx cs = none →
      st.failedCount ≤ 1 →
      st.job.completed_steps = st.steps →
      (compLoop env maxScr cs idx st).1 = false ∧
      (compLoop env maxScr cs idx st).2.steps = st.steps + cs.length ∧
      (compLoop env maxScr cs idx st).2.job.completed_steps =
        (compLoop env maxScr cs idx st).2.steps ∧
      (compLoop env maxScr cs idx st).2.job.status = st.job.status ∧
      (compLoop env maxScr cs idx st).2.succCount =
        st.succCount + (List.range' idx cs.length).countP (fun i => resolves env maxScr i) ∧
      (compLoop env maxScr cs idx st).2.analysisRan = st.analysisRan ∧
      (compLoop env maxScr cs idx st).2.emailAttempts = st.emailAttempts ∧
      (compLoop env maxScr cs idx st).2.finalizeRan = st.finalizeRan ∧
      (compLoop env maxScr cs idx st).2.stepsAfterLoop = st.stepsAfterLoop ∧
      ((cs.map (fun c => c.url)).Nodup →
        ∀ (i : Nat) (r : CompetitorRow), st.comps[i]? = some r →
          r.competitor_url ∈ cs.map (fun c => c.url) →
          ∃ r2 : CompetitorRow, (compLoop env maxScr cs idx st).2.comps[i]? = some r2 ∧
            (r2.status = "completed" ∨ r2.status = "failed")) := by
  intro cs
  induction cs with
  | nil =>
    intro idx st _ _ hsync
    refine ⟨rfl, by simp [compLoop], by simpa [compLoop] using hsync, rfl, ?_,
      rfl, rfl, rfl, rfl, ?_⟩
    · simp [compLoop]
    · intro _ i r _ hmem
      exact absurd hmem (by simp)
  | cons c rest ih =>
    intro idx st h hfl hsync
    rw [nthFailIdx] at h
    rw [compLoop]
    by_cases hres : resolves env maxScr idx = true
    · have hfb : ¬ failsB env maxScr idx = true := by simp [failsB, hres]
      rw [if_neg hfb] at h
      by_cases hor : env.cacheValid idx = true
      · rw [if_pos hor]
        have hstep := ih (idx + 1)
          (incProgress { (updComp { st with attempted := st.attempted ++ [idx] }
            c.url "completed" (some (c.name ++ "_inventory.json"))
            (some (c.name ++ "_tools.json")) none) with
              succCount := (updComp { st with attempted := st.attempted ++ [idx] }
                c.url "completed" (some (c.name ++ "_inventory.json"))
                (some (c.name ++ "_tools.json")) none).succCount + 1 })
          (by simpa [incProgress, pushProgress, updComp] using h)
          (by simpa [incProgress, pushProgress, updComp] using hfl)
          (by simp [incProgress, pushProgress, updComp, update_progress])
        refine ⟨hstep.1, ?_, hstep.2.2.1, ?_, ?_, ?_, ?_, ?_, ?_, ?_⟩
        · rw [hstep.2.1]
          simp [incProgress, pushProgress, updComp]
          omega
        · rw [hstep.2.2.2.1]
          simp [incProgress, pushProgress, updComp, update_progress]
        · rw [hstep.2.2.2.2.1]
          simp only [List.length_cons]
          rw [List.range'_succ, List.countP_cons]
          simp only [incProgress, pushProgress, updComp]
          simp [hres]
          omega
        · rw [hstep.2.2.2.2.2.1]
          simp [incProgress, pushProgress, updComp]
        · rw [hstep.2.2.2.2.2.2.1]
          simp [incProgress, pushProgress, updComp]
        · rw [hstep.2.2.2.2.2.2.2.1]
          simp [incProgress, pushProgress, updComp]
        · rw [hstep.2.2.2.2.2.2.2.2.1]
          simp [incProgress, pushProgress, updComp]
        · intro hnodup i r hr hmem
          simp only [List.map_cons, List.nodup_cons] at hnodup
          simp only [List.map_cons, List.mem_cons] at hmem
          rcases hmem with hcu | hmem
          · have hrow : (incProgress { (updComp { st with attempted := st.attempted ++ [idx] }
                c.url "completed" (some (c.name ++ "_inventory.json"))
                (some (c.name ++ "_tools.json")) none) with
                  succCount := (updComp { st with attempted := st.attempted ++ [idx] }
                    c.url "completed" (some (c.name ++ "_inventory.json"))
                    (some (c.name ++ "_tools.json")) none).succCount + 1 }).comps[i]? =
                some { r with
                  status := "completed"
                  inventory_path := some (c.name ++ "_inventory.json")
                  tools_path := some (c.name ++ "_tools.json")
                  error_message := none
                  scraped_at := some ({ st with attempted := st.attempted ++ [idx] } : OState).now } := by
              simp only [incProgress, pushProgress, updComp]
              rw [update_competitor_status_getElem, hr]
              simp only [Option.map_some']
              rw [if_pos hcu]
              rfl
            refine ⟨_, compLoop_comps_frame env maxScr rest (idx + 1) _ i _ hrow ?_, Or.inl rfl⟩
            simpa [hcu] using hnodup.1
          · have hrow : (incProgress { (updComp { st with attempted := st.attempted ++ [idx] }
                c.url "completed" (some (c.name ++ "_inventory.json"))
                (some (c.name ++ "_tools.json")) none) with
                  succCount := (updComp { st with attempted := st.attempted ++ [idx] }
                    c.url "completed" (some (c.name ++ "_inventory.json"))
                    (some (c.name ++ "_tools.json")) none).succCount + 1 }).comps[i]? =
                some r := by
              simp only [incProgress, pushProgress, updComp]
              rw [update_competitor_status_getElem, hr]
              simp only [Option.map_some']
              have hne : ¬ r.competitor_url = c.url := fun he => hnodup.1 (he ▸ hmem)
              rw [if_neg hne]
            exact hstep.2.2.2.2.2.2.2.2.2 hnodup.2 i r hrow hmem
      · rw [if_neg hor]
        have hor2 : env.cacheValid idx = false := by simpa using hor
        have hsome : (firstSuccess (env.scrapeOk idx) maxScr).isSome = true := by
          unfold resolves at hres
          rw [hor2] at hres
          simpa using hres
        rcases hso : firstSuccess (env.scrapeOk idx) maxScr with _ | a
        · rw [hso] at hsome; simp at hsome
        · have hstep := ih (idx + 1)
            (incProgress { (updComp { st with attempted := st.attempted ++ [idx] }
              c.url "completed" (some (c.name ++ "_inventory.json"))
              (some (c.name ++ "_tools.json")) none) with
                succCount := (updComp { st with attempted := st.attempted ++ [idx] }
                  c.url "completed" (some (c.name ++ "_inventory.json"))
                  (some (c.name ++ "_tools.json")) none).succCount + 1 })
            (by simpa [incProgress, pushProgress, updComp] using h)
            (by simpa [incProgress, pushProgress, updComp] using hfl)
            (by simp [incProgress, pushProgress, updComp, update_progress])
          refine ⟨hstep.1, ?_, hstep.2.2.1, ?_, ?_, ?_, ?_, ?_, ?_, ?_⟩
          · rw [hstep.2.1]
            simp [incProgress, pushProgress, updComp]
            omega
          · rw [hstep.2.2.2.1]
            simp [incProgress, pushProgress, updComp, update_progress]
          · rw [hstep.2.2.2.2.1]
            simp only [List.length_cons]
            rw [List.range'_succ, List.countP_cons]
            simp only [incProgress, pushProgress, updComp]
            simp [hres]
            omega
          · rw [hstep.2.2.2.2.2.1]
            simp [incProgress, pushProgress, updComp]
          · rw [hstep.2.2.2.2.2.2.1]
            simp [incProgress, pushProgress, updComp]
          · rw [hstep.2.2.2.2.2.2.2.1]
            simp [incProgress, pushProgress, updComp]
          · rw [hstep.2.2.2.2.2.2.2.2.1]
            simp [incProgress, pushProgress, updComp]
          · intro hnodup i r hr hmem
            simp only [List.map_cons, List.nodup_cons] at hnodup
            simp only [List.map_cons, List.mem_cons] at hmem
            rcases hmem with hcu | hmem
            · have hrow : (incProgress { (updComp { st with attempted := st.attempted ++ [idx] }
                  c.url "completed" (some (c.name ++ "_inventory.json"))
                  (some (c.name ++ "_tools.json")) none) with
                    succCount := (updComp { st with attempted := st.attempted ++ [idx] }
                      c.url "completed" (some (c.name ++ "_inventory.json"))
                      (some (c.name ++ "_tools.json")) none).succCount + 1 }).comps[i]? =
                  some { r with
                    status := "completed"
                    inventory_path := some (c.name ++ "_inventory.json")
                    tools_path := some (c.name ++ "_tools.json")
                    error_message := none
                    scraped_at := some ({ st with attempted := st.attempted ++ [idx] } : OState).now } := by
                simp only [incProgress, pushProgress, updComp]
                rw [update_competitor_status_getElem, hr]
                simp only [Option.map_some']
                rw [if_pos hcu]
                rfl
              refine ⟨_, compLoop_comps_frame env maxScr rest (idx + 1) _ i _ hrow ?_, Or.inl rfl⟩
              simpa [hcu] using hnodup.1
            · have hrow : (incProgress { (updComp { st with attempted := st.attempted ++ [idx] }
                  c.url "completed" (some (c.name ++ "_inventory.json"))
                  (some (c.name ++ "_tools.json")) none) with
                    succCount := (updComp { st with attempted := st.attempted ++ [idx] }
                      c.url "completed" (some (c.name ++ "_inventory.json"))
                      (some (c.name ++ "_tools.json")) none).succCount + 1 }).comps[i]? =
                  some r := by
                simp only [incProgress, pushProgress, updComp]
                rw [update_competitor_status_getElem, hr]
                simp only [Option.map_some']
                have hne : ¬ r.competitor_url = c.url := fun he => hnodup.1 (he ▸ hmem)
                rw [if_neg hne]
              exact hstep.2.2.2.2.2.2.2.2.2 hnodup.2 i r hrow hmem
    · have hfb : failsB env maxScr idx = true := by
        simp only [failsB, Bool.not_eq_true'] at hres ⊢
        simpa using hres
      rw [if_pos hfb] at h
      have hcv : ¬ env.cacheValid idx = true := by
        intro hcv
        exact hres (by simp [resolves, hcv])
      rw [if_neg hcv]
      have hso : firstSuccess (env.scrapeOk idx) maxScr = none := by
        rcases hso : firstSuccess (env.scrapeOk idx) maxScr with _ | a
        · rfl
        · exact absurd (by simp [resolves, hso]) hres
      rw [hso]
      have hf0 : st.failedCount = 0 := by
        rcases Nat.lt_or_ge st.failedCount 1 with h1 | h1
        · omega
        · exfalso
          have : st.failedCount = 1 := by omega
          rw [this] at h
          simp at h
      rw [hf0] at h
      norm_num at h
      rw [if_neg (by simp [updComp, hf0])]
      have hstep := ih (idx + 1)
        (incProgress (updComp { st with
            attempted := st.attempted ++ [idx]
            failedCount := st.failedCount + 1 }
          c.url "failed" none none
          (some ("Scraping failed after " ++ toString maxScr ++ " retries"))))
        (by simpa [incProgress, pushProgress, updComp, hf0] using h)
        (by simp [incProgress, pushProgress, updComp, hf0])
        (by simp [incProgress, pushProgress, updComp, update_progress])
      refine ⟨hstep.1, ?_, hstep.2.2.1, ?_, ?_, ?_, ?_, ?_, ?_, ?_⟩
      · rw [hstep.2.1]
        simp [incProgress, pushProgress, updComp]
        omega
      · rw [hstep.2.2.2.1]
        simp [incProgress, pushProgress, updComp, update_progress]
      · rw [hstep.2.2.2.2.1]
        simp only [List.length_cons]
        rw [List.range'_succ, List.countP_cons]
        simp only [incProgress, pushProgress, updComp]
        have : resolves env maxScr idx = false := by
          simpa using hres
        simp [this]
      · rw [hstep.2.2.2.2.2.1]
        simp [incProgress, pushProgress, updComp]
      · rw [hstep.2.2.2.2.2.2.1]
        simp [incProgress, pushProgress, updComp]
      · rw [hstep.2.2.2.2.2.2.2.1]
        simp [incProgress, pushProgress, updComp]
      · rw [hstep.2.2.2.2.2.2.2.2.1]
        simp [incProgress, pushProgress, updComp]
      · intro hnodup i r hr hmem
        simp only [List.map_cons, List.nodup_cons] at hnodup
        simp only [List.map_cons, List.mem_cons] at hmem
        rcases hmem with hcu | hmem
        · have hrow : (incProgress (updComp { st with
                attempted := st.attempted ++ [idx]
                failedCount := st.failedCount + 1 }
              c.url "failed" none none
              (some ("Scraping failed after " ++ toString maxScr ++ " retries")))).comps[i]? =
              some { r with
                status := "failed"
                error_message := some ("Scraping failed after " ++ toString maxScr ++ " retries") } := by
            simp only [incProgress, pushProgress, updComp]
            rw [update_competitor_status_getElem, hr]
            simp only [Option.map_some']
            rw [if_pos hcu]
            rfl
          refine ⟨_, compLoop_comps_frame env maxScr rest (idx + 1) _ i _ hrow ?_, Or.inr rfl⟩
          simpa [hcu] using hnodup.1
        · have hrow : (incProgress (updComp { st with
                attempted := st.attempted ++ [idx]
                failedCount := st.failedCount + 1 }
              c.url "failed" none none
              (some ("Scraping failed after " ++ toString maxScr ++ " retries")))).comps[i]? =
              some r := by
            simp only [incProgress, pushProgress, updComp]
            rw [update_competitor_status_getElem, hr]
            simp only [Option.map_some']
            have hne : ¬ r.competitor_url = c.url := fun he => hnodup.1 (he ▸ hmem)
            rw [if_neg hne]
          exact hstep.2.2.2.2.2.2.2.2.2 hnodup.2 i r hrow hmem

/-- Behaviour of the competitor loop when the failure threshold is reached:
scanning from position idx with 2 - n failures already counted, if the n-th
further permanent failure happens at position k then the loop aborts there.
Exactly the competitors at positions idx..k are attempted, the step counter
gains k - idx (the abort path returns before the increment of its trigger),
the job is set to failed with the fixed summary message, the phase flags are
untouched, and (for distinct urls) the rows before the trigger are resolved
completed-or-failed, the trigger row is failed with the scraper message, and
every row after the trigger is aborted with the fixed reason. -/
theorem compLoop_abort (env : Env) (maxScr : Nat) :
    ∀ (cs : List CompetitorInit) (idx : Nat) (st : OState) (k : Nat),
      nthFailIdx (failsB env maxScr) (2 - st.failedCount) idx cs = some k →
      st.failedCount ≤ 1 →
      st.job.completed_steps = st.steps →
      (compLoop env maxScr cs idx st).1 = true ∧
      (compLoop env maxScr cs idx st).2.steps = st.steps + (k - idx) ∧
      (compLoop env maxScr cs idx st).2.job.completed_steps = st.steps + (k - idx) ∧
      (compLoop env maxScr cs idx st).2.job.status = "failed" ∧
      (compLoop env maxScr cs idx st).2.job.error_message =
        some "Aborting: 2 competitors failed (threshold: 2)" ∧
      (compLoop env maxScr cs idx st).2.job.total_steps = st.job.total_steps ∧
      (compLoop env maxScr cs idx st).2.attempted =
        st.attempted ++ List.range' idx (k + 1 - idx) ∧
      (compLoop env maxScr cs idx st).2.analysisRan = st.analysisRan ∧
      (compLoop env maxScr cs idx st).2.emailAttempts = st.emailAttempts ∧
      (compLoop env maxScr cs idx st).2.finalizeRan = st.finalizeRan ∧
      (compLoop env maxScr cs idx st).2.stepsAfterLoop = st.stepsAfterLoop ∧
      ((cs.map (fun c => c.url)).Nodup →
        ∀ (i : Nat) (r : CompetitorRow), st.comps[i]? = some r →
          ((r.competitor_url ∈ (cs.take (k - idx)).map (fun c => c.url) →
              ∃ r2 : CompetitorRow,
                (compLoop env maxScr cs idx st).2.comps[i]? = some r2 ∧
                (r2.status = "completed" ∨ r2.status = "failed")) ∧
           (∀ c0 : CompetitorInit, cs[k - idx]? = some c0 →
              r.competitor_url = c0.url →
              (compLoop env maxScr cs idx st).2.comps[i]? =
              some { r with
                status := "failed"
                error_message :=
                  some ("Scraping failed after " ++ toString maxScr ++ " retries") }) ∧
           (r.competitor_url ∈ (cs.drop (k + 1 - idx)).map (fun c => c.url) →
              (compLoop env maxScr cs idx st).2.comps[i]? =
              some { r with
                status := "aborted"
                error_message := some abortCompMsg }))) := by
  intro cs
  induction cs with
  | nil =>
    intro idx st k h _ _
    exact absurd h (by simp [nthFailIdx])
  | cons c rest ih =>
    intro idx st k h hfl hsync
    rw [nthFailIdx] at h
    rw [compLoop]
    by_cases hres : resolves env maxScr idx = true
    · -- the competitor at idx resolves: the counted failures are unchanged
      have hfb : ¬ failsB env maxScr idx = true := by simp [failsB, hres]
      rw [if_neg hfb] at h
      have hk1 : idx + 1 ≤ k := nthFailIdx_ge _ rest _ _ _ h
      have e1 : k + 1 - (idx + 1) = k - idx := by omega
      have e2 : k - (idx + 1) = k - idx - 1 := by omega
      have e3 : k - idx = (k - idx - 1) + 1 := by omega
      have e4 : k + 1 - idx = (k - idx) + 1 := by omega
      by_cases hor : env.cacheValid idx = true
      · rw [if_pos hor]
        obtain ⟨g1, g2, g3, g4, g5, g6, g7, g8, g9, g10, g11, g12⟩ := ih (idx + 1)
          (incProgress { (updComp { st with attempted := st.attempted ++ [idx] }
            c.url "completed" (some (c.name ++ "_inventory.json"))
            (some (c.name ++ "_tools.json")) none) with
              succCount := (updComp { st with attempted := st.attempted ++ [idx] }
                c.url "completed" (some (c.name ++ "_inventory.json"))
                (some (c.name ++ "_tools.json")) none).succCount + 1 }) k
          (by simpa [incProgress, pushProgress, updComp] using h)
          (by simpa [incProgress, pushProgress, updComp] using hfl)
          (by simp [incProgress, pushProgress, updComp, update_progress])
        refine ⟨g1, ?_, ?_, g4, g5, ?_, ?_, ?_, ?_, ?_, ?_, ?_⟩
        · rw [g2]
          simp only [incProgress, pushProgress, updComp]
          omega
        · rw [g3]
          simp only [incProgress, pushProgress, updComp]
          omega
        · rw [g6]
          simp [incProgress, pushProgress, updComp, update_progress]
        · rw [g7]
          simp only [incProgress, pushProgress, updComp]
          rw [e1, e4, List.range'_succ]
          simp
        · rw [g8]
          simp [incProgress, pushProgress, updComp]
        · rw [g9]
          simp [incProgress, pushProgress, updComp]
        · rw [g10]
          simp [incProgress, pushProgress, updComp]
        · rw [g11]
          simp [incProgress, pushProgress, updComp]
        · intro hnodup i r hr
          simp only [List.map_cons, List.nodup_cons] at hnodup
          refine ⟨?_, ?_, ?_⟩
          · intro hmem
            rw [e3, List.take_succ_cons, List.map_cons, List.mem_cons] at hmem
            rcases hmem with hcu | hmem
            · have hrow : (incProgress { (updComp { st with attempted := st.attempted ++ [idx] }
                  c.url "completed" (some (c.name ++ "_inventory.json"))
                  (some (c.name ++ "_tools.json")) none) with
                    succCount := (updComp { st with attempted := st.attempted ++ [idx] }
                      c.url "completed" (some (c.name ++ "_inventory.json"))
                      (some (c.name ++ "_tools.json")) none).succCount + 1 }).comps[i]? =
                  some { r with
                    status := "completed"
                    inventory_path := some (c.name ++ "_inventory.json")
                    tools_path := some (c.name ++ "_tools.json")
                    error_message := none
                    scraped_at := some ({ st with attempted := st.attempted ++ [idx] } : OState).now } := by
                simp only [incProgress, pushProgress, updComp]
                rw [update_competitor_status_getElem, hr]
                simp only [Option.map_some']
                rw [if_pos hcu]
                rfl
              refine ⟨_, compLoop_comps_frame env maxScr rest (idx + 1) _ i _ hrow ?_, Or.inl rfl⟩
              simpa [hcu] using hnodup.1
            · have hne : ¬ r.competitor_url = c.url := by
                intro he
                exact hnodup.1 (he ▸ (List.map_subset _ (List.take_subset _ _) hmem))
              have hrow : (incProgress { (updComp { st with attempted := st.attempted ++ [idx] }
                  c.url "completed" (some (c.name ++ "_inventory.json"))
                  (some (c.name ++ "_tools.json")) none) with
                    succCount := (updComp { st with attempted := st.attempted ++ [idx] }
                      c.url "completed" (some (c.name ++ "_inventory.json"))
                      (some (c.name ++ "_tools.json")) none).succCount + 1 }).comps[i]? =
                  some r := by
                simp only [incProgress, pushProgress, updComp]
                rw [update_competitor_status_getElem, hr]
                simp only [Option.map_some']
                rw [if_neg hne]
              have := (g12 hnodup.2 i r hrow).1
              rw [e2] at this
              exact this hmem
          · intro c0 hc0 hurl
            rw [e3, List.getElem?_cons_succ, ← e2] at hc0
            have hc0mem : c0 ∈ rest := List.getElem?_mem hc0
            have hne : ¬ r.competitor_url = c.url := by
              intro he
              refine hnodup.1 ?_
              rw [← he, hurl]
              exact List.mem_map_of_mem _ hc0mem
            have hrow : (incProgress { (updComp { st with attempted := st.attempted ++ [idx] }
                c.url "completed" (some (c.name ++ "_inventory.json"))
                (some (c.name ++ "_tools.json")) none) with
                  succCount := (updComp { st with attempted := st.attempted ++ [idx] }
                    c.url "completed" (some (c.name ++ "_inventory.json"))
                    (some (c.name ++ "_tools.json")) none).succCount + 1 }).comps[i]? =
                some r := by
              simp only [incProgress, pushProgress, updComp]
              rw [update_competitor_status_getElem, hr]
              simp only [Option.map_some']
              rw [if_neg hne]
            exact (g12 hnodup.2 i r hrow).2.1 c0 hc0 hurl
          · intro hmem
            rw [e4, List.drop_succ_cons, ← e1] at hmem
            have hne : ¬ r.competitor_url = c.url := by
              intro he
              exact hnodup.1 (he ▸ (List.map_subset _ (List.drop_subset _ _) hmem))
            have hrow : (incProgress { (updComp { st with attempted := st.attempted ++ [idx] }
                c.url "completed" (some (c.name ++ "_inventory.json"))
                (some (c.name ++ "_tools.json")) none) with
                  succCount := (updComp { st with attempted := st.attempted ++ [idx] }
                    c.url "completed" (some (c.name ++ "_inventory.json"))
                    (some (c.name ++ "_tools.json")) none).succCount + 1 }).comps[i]? =
                some r := by
              simp only [incProgress, pushProgress, updComp]
              rw [update_competitor_status_getElem, hr]
              simp only [Option.map_some']
              rw [if_neg hne]
            exact (g12 hnodup.2 i r hrow).2.2 hmem
      · rw [if_neg hor]
        have hor2 : env.cacheValid idx = false := by simpa using hor
        have hsome : (firstSuccess (env.scrapeOk idx) maxScr).isSome = true := by
          unfold resolves at hres
          rw [hor2] at hres
          simpa using hres
        rcases hso : firstSuccess (env.scrapeOk idx) maxScr with _ | a
        · rw [hso] at hsome; simp at hsome
        · obtain ⟨g1, g2, g3, g4, g5, g6, g7, g8, g9, g10, g11, g12⟩ := ih (idx + 1)
            (incProgress { (updComp { st with attempted := st.attempted ++ [idx] }
              c.url "completed" (some (c.name ++ "_inventory.json"))
              (some (c.name ++ "_tools.json")) none) with
                succCount := (updComp { st with attempted := st.attempted ++ [idx] }
                  c.url "completed" (some (c.name ++ "_inventory.json"))
                  (some (c.name ++ "_tools.json")) none).succCount + 1 }) k
            (by simpa [incProgress, pushProgress, updComp] using h)
            (by simpa [incProgress, pushProgress, updComp] using hfl)
            (by simp [incProgress, pushProgress, updComp, update_progress])
          refine ⟨g1, ?_, ?_, g4, g5, ?_, ?_, ?_, ?_, ?_, ?_, ?_⟩
          · rw [g2]
            simp only [incProgress, pushProgress, updComp]
            omega
          · rw [g3]
            simp only [incProgress, pushProgress, updComp]
            omega
          · rw [g6]
            simp [incProgress, pushProgress, updComp, update_progress]
          · rw [g7]
            simp only [incProgress, pushProgress, updComp]
            rw [e1, e4, List.range'_succ]
            simp
          · rw [g8]
            simp [incProgress, pushProgress, updComp]
          · rw [g9]
            simp [incProgress, pushProgress, updComp]
          · rw [g10]
            simp [incProgress, pushProgress, updComp]
          · rw [g11]
            simp [incProgress, pushProgress, updComp]
          · intro hnodup i r hr
            simp only [List.map_cons, List.nodup_cons] at hnodup
            refine ⟨?_, ?_, ?_⟩
            · intro hmem
              rw [e3, List.take_succ_cons, List.map_cons, List.mem_cons] at hmem
              rcases hmem with hcu | hmem
              · have hrow : (incProgress { (updComp { st with attempted := st.attempted ++ [idx] }
                    c.url "completed" (some (c.name ++ "_inventory.json"))
                    (some (c.name ++ "_tools.json")) none) with
                      succCount := (updComp { st with attempted := st.attempted ++ [idx] }
                        c.url "completed" (some (c.name ++ "_inventory.json"))
                        (some (c.name ++ "_tools.json")) none).succCount + 1 }).comps[i]? =
                    some { r with
                      status := "completed"
                      inventory_path := some (c.name ++ "_inventory.json")
                      tools_path := some (c.name ++ "_tools.json")
                      error_message := none
                      scraped_at := some ({ st with attempted := st.attempted ++ [idx] } : OState).now } := by
                  simp only [incProgress, pushProgress, updComp]
                  rw [update_competitor_status_getElem, hr]
                  simp only [Option.map_some']
                  rw [if_pos hcu]
                  rfl
                refine ⟨_, compLoop_comps_frame env maxScr rest (idx + 1) _ i _ hrow ?_, Or.inl rfl⟩
                simpa [hcu] using hnodup.1
              · have hne : ¬ r.competitor_url = c.url := by
                  intro he
                  exact hnodup.1 (he ▸ (List.map_subset _ (List.take_subset _ _) hmem))
                have hrow : (incProgress { (updComp { st with attempted := st.attempted ++ [idx] }
                    c.url "completed" (some (c.name ++ "_inventory.json"))
                    (some (c.name ++ "_tools.json")) none) with
                      succCount := (updComp { st with attempted := st.attempted ++ [idx] }
                        c.url "completed" (some (c.name ++ "_inventory.json"))
                        (some (c.name ++ "_tools.json")) none).succCount + 1 }).comps[i]? =
                    some r := by
                  simp only [incProgress, pushProgress, updComp]
                  rw [update_competitor_status_getElem, hr]
                  simp only [Option.map_some']
                  rw [if_neg hne]
                have := (g12 hnodup.2 i r hrow).1
                rw [e2] at this
                exact this hmem
            · intro c0 hc0 hurl
              rw [e3, List.getElem?_cons_succ, ← e2] at hc0
              have hc0mem : c0 ∈ rest := List.getElem?_mem hc0
              have hne : ¬ r.competitor_url = c.url := by
                intro he
                refine hnodup.1 ?_
                rw [← he, hurl]
                exact List.mem_map_of_mem _ hc0mem
              have hrow : (incProgress { (updComp { st with attempted := st.attempted ++ [idx] }
                  c.url "completed" (some (c.name ++ "_inventory.json"))
                  (some (c.name ++ "_tools.json")) none) with
                    succCount := (updComp { st with attempted := st.attempted ++ [idx] }
                      c.url "completed" (some (c.name ++ "_inventory.json"))
                      (some (c.name ++ "_tools.json")) none).succCount + 1 }).comps[i]? =
                  some r := by
                simp only [incProgress, pushProgress, updComp]
                rw [update_competitor_status_getElem, hr]
                simp only [Option.map_some']
                rw [if_neg hne]
              exact (g12 hnodup.2 i r hrow).2.1 c0 hc0 hurl
            · intro hmem
              rw [e4, List.drop_succ_cons, ← e1] at hmem
              have hne : ¬ r.competitor_url = c.url := by
                intro he
                exact hnodup.1 (he ▸ (List.map_subset _ (List.drop_subset _ _) hmem))
              have hrow : (incProgress { (updComp { st with attempted := st.attempted ++ [idx] }
                  c.url "completed" (some (c.name ++ "_inventory.json"))
                  (some (c.name ++ "_tools.json")) none) with
                    succCount := (updComp { st with attempted := st.attempted ++ [idx] }
                      c.url "completed" (some (c.name ++ "_inventory.json"))
                      (some (c.name ++ "_tools.json")) none).succCount + 1 }).comps[i]? =
                  some r := by
                simp only [incProgress, pushProgress, updComp]
                rw [update_competitor_status_getElem, hr]
                simp only [Option.map_some']
                rw [if_neg hne]
              exact (g12 hnodup.2 i r hrow).2.2 hmem
    · -- the competitor at idx fails permanently
      have hfb : failsB env maxScr idx = true := by
        simp only [failsB, Bool.not_eq_true'] at hres ⊢
        simpa using hres
      rw [if_pos hfb] at h
      have hcv : ¬ env.cacheValid idx = true := by
        intro hcv
        exact hres (by simp [resolves, hcv])
      rw [if_neg hcv]
      have hso : firstSuccess (env.scrapeOk idx) maxScr = none := by
        rcases hso : firstSuccess (env.scrapeOk idx) maxScr with _ | a
        · rfl
        · exact absurd (by simp [resolves, hso]) hres
      rw [hso]
      by_cases hf1 : st.failedCount = 1
      · -- this failure is the second one: abort now
        rw [hf1] at h
        norm_num at h
        subst h
        rw [if_pos (by simp [updComp, hf1])]
        have hF := abortRemaining_fields rest
          (updComp { st with
              attempted := st.attempted ++ [idx]
              failedCount := st.failedCount + 1 }
            c.url "failed" none none
            (some ("Scraping failed after " ++ toString maxScr ++ " retries")))
        refine ⟨rfl, ?_, ?_, ?_, ?_, ?_, ?_, ?_, ?_, ?_, ?_, ?_⟩
        · simp only [pushStatus]
          rw [hF.2.2.1]
          simp [updComp]
        · simp only [pushStatus]
          rw [hF.1]
          simp only [update_status, updComp]
          simpa using hsync
        · simp only [pushStatus]
          rw [hF.1]
          simp [update_status]
        · simp only [pushStatus]
          rw [hF.1]
          simp only [update_status, updComp, hf1]
          have hty : py_truthy (some ("Aborting: " ++ toString (1 + 1) ++
              " competitors failed (threshold: 2)")) = true := by decide
          rw [if_pos hty]
          decide
        · simp only [pushStatus]
          rw [hF.1]
          simp [update_status, updComp]
        · simp only [pushStatus]
          rw [hF.2.2.2.2.2.1]
          simp only [updComp]
          have : idx + 1 - idx = 1 := by omega
          rw [this]
          simp [List.range']
        · simp only [pushStatus]
          rw [hF.2.2.2.2.2.2.1]
          simp [updComp]
        · simp only [pushStatus]
          rw [hF.2.2.2.2.2.2.2.1]
          simp [updComp]
        · simp only [pushStatus]
          rw [hF.2.2.2.2.2.2.2.2.1]
          simp [updComp]
        · simp only [pushStatus]
          rw [hF.2.2.2.2.2.2.2.2.2]
          simp [updComp]
        · intro hnodup i r hr
          simp only [List.map_cons, List.nodup_cons] at hnodup
          have hzero : idx - idx = 0 := by omega
          refine ⟨?_, ?_, ?_⟩
          · intro hmem
            rw [hzero] at hmem
            simp at hmem
          · intro c0 hc0 hurl
            rw [hzero, List.getElem?_cons_zero] at hc0
            have hc0c : c0 = c := Option.some.inj hc0.symm
            have hrow : (updComp { st with
                attempted := st.attempted ++ [idx]
                failedCount := st.failedCount + 1 }
              c.url "failed" none none
              (some ("Scraping failed after " ++ toString maxScr ++ " retries"))).comps[i]? =
                some { r with
                  status := "failed"
                  error_message :=
                    some ("Scraping failed after " ++ toString maxScr ++ " retries") } := by
              simp only [updComp]
              rw [update_competitor_status_getElem, hr]
              simp only [Option.map_some']
              rw [if_pos (by rw [hurl, hc0c])]
              rfl
            have habort := abortRemaining_comps_frame rest _ i _ hrow
              (by simpa [hurl, hc0c] using hnodup.1)
            simp only [pushStatus]
            exact habort
          · intro hmem
            have h1 : idx + 1 - idx = 1 := by omega
            rw [h1, List.drop_succ_cons, List.drop_zero] at hmem
            have hne : ¬ r.competitor_url = c.url := by
              intro he
              exact hnodup.1 (he ▸ hmem)
            have hrow : (updComp { st with
                attempted := st.attempted ++ [idx]
                failedCount := st.failedCount + 1 }
              c.url "failed" none none
              (some ("Scraping failed after " ++ toString maxScr ++ " retries"))).comps[i]? =
                some r := by
              simp only [updComp]
              rw [update_competitor_status_getElem, hr]
              simp only [Option.map_some']
              rw [if_neg hne]
            have habort := abortRemaining_comps_abort rest _ i _ hrow hmem
            simp only [pushStatus]
            exact habort
      · -- first failure: keep scanning with the counter at one
        have hf0 : st.failedCount = 0 := by omega
        rw [hf0] at h
        norm_num at h
        rw [if_neg (by simp [updComp, hf0])]
        have hk1 : idx + 1 ≤ k := nthFailIdx_ge _ rest _ _ _ h
        have e1 : k + 1 - (idx + 1) = k - idx := by omega
        have e2 : k - (idx + 1) = k - idx - 1 := by omega
        have e3 : k - idx = (k - idx - 1) + 1 := by omega
        have e4 : k + 1 - idx = (k - idx) + 1 := by omega
        obtain ⟨g1, g2, g3, g4, g5, g6, g7, g8, g9, g10, g11, g12⟩ := ih (idx + 1)
          (incProgress (updComp { st with
              attempted := st.attempted ++ [idx]
              failedCount := st.failedCount + 1 }
            c.url "failed" none none
            (some ("Scraping failed after " ++ toString maxScr ++ " retries")))) k
          (by simpa [incProgress, pushProgress, updComp, hf0] using h)
          (by simp [incProgress, pushProgress, updComp, hf0])
          (by simp [incProgress, pushProgress, updComp, update_progress])
        refine ⟨g1, ?_, ?_, g4, g5, ?_, ?_, ?_, ?_, ?_, ?_, ?_⟩
        · rw [g2]
          simp only [incProgress, pushProgress, updComp]
          omega
        · rw [g3]
          simp only [incProgress, pushProgress, updComp]
          omega
        · rw [g6]
          simp [incProgress, pushProgress, updComp, update_progress]
        · rw [g7]
          simp only [incProgress, pushProgress, updComp]
          rw [e1, e4, List.range'_succ]
          simp
        · rw [g8]
          simp [incProgress, pushProgress, updComp]
        · rw [g9]
          simp [incProgress, pushProgress, updComp]
        · rw [g10]
          simp [incProgress, pushProgress, updComp]
        · rw [g11]
          simp [incProgress, pushProgress, updComp]
        · intro hnodup i r hr
          simp only [List.map_cons, List.nodup_cons] at hnodup
          refine ⟨?_, ?_, ?_⟩
          · intro hmem
            rw [e3, List.take_succ_cons, List.map_cons, List.mem_cons] at hmem
            rcases hmem with hcu | hmem
            · have hrow : (incProgress (updComp { st with
                  attempted := st.attempted ++ [idx]
                  failedCount := st.failedCount + 1 }
                c.url "failed" none none
                (some ("Scraping failed after " ++ toString maxScr ++ " retries")))).comps[i]? =
                  some { r with
                    status := "failed"
                    error_message :=
                      some ("Scraping failed after " ++ toString maxScr ++ " retries") } := by
                simp only [incProgress, pushProgress, updComp]
                rw [update_competitor_status_getElem, hr]
                simp only [Option.map_some']
                rw [if_pos hcu]
                rfl
              refine ⟨_, compLoop_comps_frame env maxScr rest (idx + 1) _ i _ hrow ?_, Or.inr rfl⟩
              simpa [hcu] using hnodup.1
            · have hne : ¬ r.competitor_url = c.url := by
                intro he
                exact hnodup.1 (he ▸ (List.map_subset _ (List.take_subset _ _) hmem))
              have hrow : (incProgress (updComp { st with
                  attempted := st.attempted ++ [idx]
                  failedCount := st.failedCount + 1 }
                c.url "failed" none none
                (some ("Scraping failed after " ++ toString maxScr ++ " retries")))).comps[i]? =
                  some r := by
                simp only [incProgress, pushProgress, updComp]
                rw [update_competitor_status_getElem, hr]
                simp only [Option.map_some']
                rw [if_neg hne]
              have := (g12 hnodup.2 i r hrow).1
              rw [e2] at this
              exact this hmem
          · intro c0 hc0 hurl
            rw [e3, List.getElem?_cons_succ, ← e2] at hc0
            have hc0mem : c0 ∈ rest := List.getElem?_mem hc0
            have hne : ¬ r.competitor_url = c.url := by
              intro he
              refine hnodup.1 ?_
              rw [← he, hurl]
              exact List.mem_map_of_mem _ hc0mem
            have hrow : (incProgress (updComp { st with
                attempted := st.attempted ++ [idx]
                failedCount := st.failedCount + 1 }
              c.url "failed" none none
              (some ("Scraping failed after " ++ toString maxScr ++ " retries")))).comps[i]? =
                some r := by
              simp only [incProgress, pushProgress, updComp]
              rw [update_competitor_status_getElem, hr]
              simp only [Option.map_some']
              rw [if_neg hne]
            exact (g12 hnodup.2 i r hrow).2.1 c0 hc0 hurl
          · intro hmem
            rw [e4, List.drop_succ_cons, ← e1] at hmem
            have hne : ¬ r.competitor_url = c.url := by
              intro he
              exact hnodup.1 (he ▸ (List.map_subset _ (List.drop_subset _ _) hmem))
            have hrow : (incProgress (updComp { st with
                attempted := st.attempted ++ [idx]
                failedCount := st.failedCount + 1 }
              c.url "failed" none none
              (some ("Scraping failed after " ++ toString maxScr ++ " retries")))).comps[i]? =
                some r := by
              simp only [incProgress, pushProgress, updComp]
              rw [update_competitor_status_getElem, hr]
              simp only [Option.map_some']
              rw [if_neg hne]
            exact (g12 hnodup.2 i r hrow).2.2 hmem

/-! Claim theorems for the orchestrator. -/

/-- C10: processing a job created with an empty competitor list (so
total_steps = 4) never reaches the analysis, email or finalize phases and
never returns True: the competitor loop runs zero iterations, and — when
phase 1 succeeds — the zero-success check fires and fails the job with the
message No competitors scraped successfully, after a recorded
completed_steps of 1; when phase 1 raises, the job is failed even earlier.
Either way the job ends failed and process_job returns False. -/
theorem C10_empty_competitor_list (env : Env) (maxScr maxEmail : Nat) (t0 : Nat) :
    (process_job env maxScr maxEmail [] t0).1 = false ∧
    (process_job env maxScr maxEmail [] t0).2.job.status = "failed" ∧
    (process_job env maxScr maxEmail [] t0).2.job.total_steps = 4 ∧
    (process_job env maxScr maxEmail [] t0).2.attempted = [] ∧
    (process_job env maxScr maxEmail [] t0).2.analysisRan = false ∧
    (process_job env maxScr maxEmail [] t0).2.emailAttempts = 0 ∧
    (process_job env maxScr maxEmail [] t0).2.finalizeRan = false ∧
    (env.inventoryError = none → env.toolsError = none →
      (process_job env maxScr maxEmail [] t0).2.job.error_message =
        some "No competitors scraped successfully" ∧
      (process_job env maxScr maxEmail [] t0).2.stepsAfterLoop = some 1) := by
  unfold process_job
  cases hinv : env.inventoryError with
  | some e =>
    simp [compLoop, start_state, post_loop, pushStatus, incProgress,
      pushProgress, update_status, update_progress, create_job_row, py_truthy]
  | none =>
    cases htools : env.toolsError with
    | some e =>
      simp [compLoop, start_state, post_loop, pushStatus, incProgress,
        pushProgress, update_status, update_progress, create_job_row, py_truthy]
    | none =>
      simp [compLoop, start_state, post_loop, pushStatus, incProgress,
        pushProgress, update_status, update_progress, create_job_row, py_truthy]

/-- Environment for the C10 witness: phase 1 succeeds and every collaborator
would succeed. -/
def c10_env : Env :=
  { inventoryError := none, toolsError := none, cacheValid := fun _ => true,
    scrapeOk := fun _ _ => true, analysisError := none, emailOk := fun _ => true }

/-- C10 witness: at a concrete healthy environment, the empty-list job fails
with the zero-success message. -/
theorem C10_witness :
    (process_job c10_env 2 3 [] 0).1 = false ∧
    (process_job c10_env 2 3 [] 0).2.job.error_message =
      some "No competitors scraped successfully" := by
  have h := C10_empty_competitor_list c10_env 2 3 0
  exact ⟨h.1, (h.2.2.2.2.2.2.2 rfl rfl).1⟩

/-- Environment for the C4 counterexample: one competitor with a usable
cache hit, analysis succeeds, email succeeds at the first attempt. -/
def c4_env : Env :=
  { inventoryError := none, toolsError := none, cacheValid := fun _ => true,
    scrapeOk := fun _ _ => true, analysisError := none, emailOk := fun _ => true }

/-- The single competitor of the C4 counterexample run. -/
def c4_comp : CompetitorInit := { url := "https://a.example", name := "A" }

/-- C4 counterexample: in a successful one-competitor run the ninth
persisted update (the finalize status update) leaves the job observable
with status completed while completed_steps is still 4 of 5 — the final
progress update only comes afterwards — so at that observable point the
claimed equivalence between completed_steps = total_steps and status
completed fails in the completed-implies-equal direction. -/
theorem C4_counterexample_completed_before_last_progress :
    ((process_job c4_env 2 3 [c4_comp] 0).2.trace[8]?).map (fun j => j.status) =
      some "completed" ∧
    ((process_job c4_env 2 3 [c4_comp] 0).2.trace[8]?).map (fun j => j.completed_steps) =
      some 4 ∧
    ((process_job c4_env 2 3 [c4_comp] 0).2.trace[8]?).map (fun j => j.total_steps) =
      some 5 := by
  decide

/-- Every job-row snapshot in the trace of the two initial status updates has
completed_steps 0, total_steps 2 + n + 2 and status processing. -/
theorem start_state_trace (comps : List CompetitorInit) (t0 : Nat) :
    ∀ x ∈ (incProgress (start_state comps t0)).trace,
      x.completed_steps ≤ 1 ∧ x.total_steps = 2 + comps.length + 2 := by
  intro x hx
  simp only [incProgress, pushProgress, pushStatus, start_state, List.append_assoc,
    List.nil_append, List.mem_append, List.mem_singleton] at hx
  rcases hx with hx | hx | hx <;> subst hx <;>
    constructor <;>
    simp [update_progress, update_status, create_job_row]

/-- The job state entering the competitor loop after a successful phase 1:
one step done and persisted, total 2 + n + 2, status processing, counters at
zero. -/
theorem phase1_state_fields (comps : List CompetitorInit) (t0 : Nat) :
    (incProgress (start_state comps t0)).steps = 1 ∧
    (incProgress (start_state comps t0)).job.completed_steps = 1 ∧
    (incProgress (start_state comps t0)).job.total_steps = 2 + comps.length + 2 ∧
    (incProgress (start_state comps t0)).job.status = "processing" ∧
    (incProgress (start_state comps t0)).succCount = 0 ∧
    (incProgress (start_state comps t0)).failedCount = 0 ∧
    (incProgress (start_state comps t0)).attempted = [] ∧
    (incProgress (start_state comps t0)).analysisRan = false ∧
    (incProgress (start_state comps t0)).emailAttempts = 0 ∧
    (incProgress (start_state comps t0)).finalizeRan = false ∧
    (incProgress (start_state comps t0)).stepsAfterLoop = none ∧
    (incProgress (start_state comps t0)).comps = create_competitor_rows comps := by
  refine ⟨?_, ?_, ?_, ?_, ?_, ?_, ?_, ?_, ?_, ?_, ?_, ?_⟩ <;>
    simp [incProgress, pushProgress, pushStatus, start_state, update_progress,
      update_status, create_job_row, py_truthy]

/-- The invariant completed_steps at most total_steps, with equality only
under status completed, holds for every snapshot the post-loop phases append
to a loop outcome whose steps and trace are suitably bounded. -/
theorem post_loop_trace_bound (env : Env) (maxEmail : Nat) (res : Bool × OState)
    (T B : Nat)
    (hT : res.2.job.total_steps = T)
    (hB : res.2.steps ≤ B)
    (hBT : B + 3 ≤ T)
    (hsync : res.2.job.completed_steps ≤ res.2.steps)
    (htr : ∀ x ∈ res.2.trace, x.completed_steps ≤ B ∧ x.total_steps = T) :
    ∀ j ∈ (post_loop env maxEmail res).2.trace,
      j.completed_steps ≤ j.total_steps ∧
      (j.completed_steps = j.total_steps → j.status = "completed") := by
  intro j hj
  unfold post_loop at hj
  by_cases hL : res.1 = true
  · rw [if_pos hL] at hj
    obtain ⟨h1, h2⟩ := htr j hj
    exact ⟨by omega, fun habs => absurd habs (by omega)⟩
  · rw [if_neg hL] at hj
    dsimp only at hj
    by_cases hS : res.2.succCount = 0
    · rw [if_pos hS] at hj
      simp only [pushStatus, List.mem_append, List.mem_singleton] at hj
      rcases hj with hj | hj
      · obtain ⟨h1, h2⟩ := htr j hj
        exact ⟨by omega, fun habs => absurd habs (by omega)⟩
      · subst hj
        refine ⟨?_, fun habs => absurd habs ?_⟩ <;>
          simp only [update_status] <;> omega
    · rw [if_neg hS] at hj
      cases hAn : env.analysisError with
      | some e =>
        rw [hAn] at hj
        dsimp only at hj
        simp only [pushStatus, List.append_assoc, List.mem_append,
          List.mem_singleton] at hj
        rcases hj with hj | hj | hj
        · obtain ⟨h1, h2⟩ := htr j hj
          exact ⟨by omega, fun habs => absurd habs (by omega)⟩
        · subst hj
          refine ⟨?_, fun habs => absurd habs ?_⟩ <;>
            simp only [update_status] <;> omega
        · subst hj
          refine ⟨?_, fun habs => absurd habs ?_⟩ <;>
            simp only [update_status] <;> omega
      | none =>
        rw [hAn] at hj
        dsimp only at hj
        cases hE : firstSuccess env.emailOk maxEmail with
        | none =>
          rw [hE] at hj
          dsimp only at hj
          simp only [pushStatus, incProgress, pushProgress, List.append_assoc,
            List.mem_append, List.mem_singleton] at hj
          rcases hj with hj | hj | hj | hj | hj
          · obtain ⟨h1, h2⟩ := htr j hj
            exact ⟨by omega, fun habs => absurd habs (by omega)⟩
          · subst hj
            refine ⟨?_, fun habs => absurd habs ?_⟩ <;>
              simp only [update_status] <;> omega
          · subst hj
            refine ⟨?_, fun habs => absurd habs ?_⟩ <;>
              simp only [update_status, update_progress] <;> omega
          · subst hj
            refine ⟨?_, fun habs => absurd habs ?_⟩ <;>
              simp only [update_status, update_progress] <;> omega
          · subst hj
            refine ⟨?_, fun habs => absurd habs ?_⟩ <;>
              simp only [update_status, update_progress] <;> omega
        | some a =>
          rw [hE] at hj
          dsimp only at hj
          simp only [pushStatus, incProgress, pushProgress, List.append_assoc,
            List.mem_append, List.mem_singleton] at hj
          rcases hj with hj | hj | hj | hj | hj | hj | hj
          · obtain ⟨h1, h2⟩ := htr j hj
            exact ⟨by omega, fun habs => absurd habs (by omega)⟩
          · subst hj
            refine ⟨?_, fun habs => absurd habs ?_⟩ <;>
              simp only [update_status] <;> omega
          · subst hj
            refine ⟨?_, fun habs => absurd habs ?_⟩ <;>
              simp only [update_status, update_progress] <;> omega
          · subst hj
            refine ⟨?_, fun habs => absurd habs ?_⟩ <;>
              simp only [update_status, update_progress] <;> omega
          · subst hj
            refine ⟨?_, fun habs => absurd habs ?_⟩ <;>
              simp only [update_status, update_progress] <;> omega
          · subst hj
            constructor
            · simp only [update_status, update_progress]
              omega
            · intro _
              simp [update_status, update_progress]
          · subst hj
            constructor
            · simp only [update_status, update_progress]
              omega
            · intro _
              simp [update_status, update_progress]

/-- C4 (amended): at every observable point of any run — after every
persisted status or progress update — completed_steps never exceeds
total_steps, and completed_steps equals total_steps only at a point whose
status is completed.  (The direction of the original equivalence claim that
status completed implies completed_steps = total_steps fails at exactly
one observable point, exhibited by the counterexample.) -/
theorem C4_progress_invariant (env : Env) (maxScr maxEmail : Nat)
    (comps : List CompetitorInit) (t0 : Nat) :
    ∀ j ∈ (process_job env maxScr maxEmail comps t0).2.trace,
      j.completed_steps ≤ j.total_steps ∧
      (j.completed_steps = j.total_steps → j.status = "completed") := by
  intro j hj
  unfold process_job at hj
  cases hinv : env.inventoryError with
  | some e =>
    rw [hinv] at hj
    dsimp only at hj
    simp only [pushStatus, start_state, List.append_assoc, List.nil_append,
      List.mem_append, List.mem_singleton] at hj
    rcases hj with hj | hj | hj <;> subst hj <;>
      refine ⟨?_, fun habs => absurd habs ?_⟩ <;>
      simp only [update_status, create_job_row] <;> omega
  | none =>
    rw [hinv] at hj
    cases htools : env.toolsError with
    | some e =>
      rw [htools] at hj
      dsimp only at hj
      simp only [pushStatus, start_state, List.append_assoc, List.nil_append,
        List.mem_append, List.mem_singleton] at hj
      rcases hj with hj | hj | hj <;> subst hj <;>
        refine ⟨?_, fun habs => absurd habs ?_⟩ <;>
        simp only [update_status, create_job_row] <;> omega
    | none =>
      rw [htools] at hj
      dsimp only at hj
      obtain ⟨hA, hT, hC, hD⟩ := compLoop_bound env maxScr comps 0
        (incProgress (start_state comps t0))
        (by rw [(phase1_state_fields comps t0).2.1, (phase1_state_fields comps t0).1])
      refine post_loop_trace_bound env maxEmail _ (2 + comps.length + 2)
        (1 + comps.length) ?_ ?_ (by omega) hC ?_ j hj
      · rw [hT]
        exact (phase1_state_fields comps t0).2.2.1
      · refine le_trans hA ?_
        rw [(phase1_state_fields comps t0).1]
      · intro x hx
        rcases hD x hx with hx2 | hx2
        · obtain ⟨h1, h2⟩ := start_state_trace comps t0 x hx2
          exact ⟨by omega, h2⟩
        · obtain ⟨h1, h2⟩ := hx2
          rw [(phase1_state_fields comps t0).1] at h1
          rw [(phase1_state_fields comps t0).2.2.1] at h2
          exact ⟨h1, h2⟩

/-- C4 witness: the invariant holds at the first persisted snapshot of a
concrete successful run. -/
theorem C4_witness :
    (update_status (create_job_row 1 0) (0 + 1) "processing" (some "Starting")
        none).completed_steps ≤
      (update_status (create_job_row 1 0) (0 + 1) "processing" (some "Starting")
        none).total_steps :=
  (C4_progress_invariant c4_env 2 3 [c4_comp] 0
    (update_status (create_job_row 1 0) (0 + 1) "processing" (some "Starting") none)
    (by decide)).1

/-- The first attempt number in the budget at which the outcome function
succeeds, when the first k attempts fail and attempt k + 1 succeeds within
the budget. -/
theorem firstSuccess_eq_some (ok : Nat → Bool) (maxR k : Nat) (hk : k < maxR)
    (hfail : ∀ a, 1 ≤ a → a ≤ k → ok a = false) (hsucc : ok (k + 1) = true) :
    firstSuccess ok maxR = some (k + 1) := by
  unfold firstSuccess
  have hsplit : List.range' 1 maxR = List.range' 1 k ++ List.range' (k + 1) (maxR - k) := by
    have hap := List.range'_append 1 k (maxR - k) 1
    simp only [Nat.one_mul] at hap
    rw [show (1 : Nat) + k = k + 1 by omega] at hap
    nth_rewrite 1 [show maxR = maxR - k + k by omega]
    exact hap.symm
  rw [hsplit, List.filter_append]
  have h1 : (List.range' 1 k).filter ok = [] := by
    rw [List.filter_eq_nil_iff]
    intro a ha
    rw [List.mem_range'] at ha
    obtain ⟨i, hi, rfl⟩ := ha
    simp only [Nat.one_mul]
    rw [hfail (1 + i) (by omega) (by omega)]
    simp
  have h2 : maxR - k = (maxR - k - 1) + 1 := by omega
  rw [h1, h2, List.range'_succ, List.filter_cons_of_pos hsucc]
  rfl

/-- The retry loop reports no success when every attempt in the budget
fails. -/
theorem firstSuccess_eq_none (ok : Nat → Bool) (maxR : Nat)
    (hfail : ∀ a, 1 ≤ a → a ≤ maxR → ok a = false) :
    firstSuccess ok maxR = none := by
  unfold firstSuccess
  rw [List.filter_eq_nil_iff.mpr]
  · rfl
  · intro a ha
    rw [List.mem_range'] at ha
    obtain ⟨i, hi, rfl⟩ := ha
    simp only [Nat.one_mul]
    rw [hfail (1 + i) (by omega) (by omega)]
    simp

/-- C9: in the email phase with a retry budget of 3, when phase 1 succeeds,
the loop never reaches the abort threshold, at least one competitor
resolves, and the analysis succeeds: if the email collaborator fails on the
first k attempts (k below 3) and succeeds on attempt k + 1, the run
finalizes and the job ends completed after exactly k + 1 email attempts; if
all 3 attempts fail, the job ends failed with the email-specific message
Email failed after 3 retries and the finalize phase never runs (the
analysis phase had run). -/
theorem C9_email_retry_budget (env : Env) (maxScr : Nat)
    (comps : List CompetitorInit) (t0 : Nat)
    (hinv : env.inventoryError = none) (htools : env.toolsError = none)
    (hnoabort : nthFailIdx (failsB env maxScr) 2 0 comps = none)
    (hsucc : 1 ≤ (List.range' 0 comps.length).countP (fun i => resolves env maxScr i))
    (hanalysis : env.analysisError = none) :
    (∀ k : Nat, k < 3 → (∀ a, 1 ≤ a → a ≤ k → env.emailOk a = false) →
      env.emailOk (k + 1) = true →
      (process_job env maxScr 3 comps t0).1 = true ∧
      (process_job env maxScr 3 comps t0).2.job.status = "completed" ∧
      (process_job env maxScr 3 comps t0).2.finalizeRan = true ∧
      (process_job env maxScr 3 comps t0).2.emailAttempts = k + 1) ∧
    ((∀ a, 1 ≤ a → a ≤ 3 → env.emailOk a = false) →
      (process_job env maxScr 3 comps t0).1 = false ∧
      (process_job env maxScr 3 comps t0).2.job.status = "failed" ∧
      (process_job env maxScr 3 comps t0).2.job.error_message =
        some "Email failed after 3 retries" ∧
      (process_job env maxScr 3 comps t0).2.finalizeRan = false ∧
      (process_job env maxScr 3 comps t0).2.analysisRan = true) := by
  unfold process_job
  rw [hinv, htools]
  dsimp only
  obtain ⟨l1, l2, l3, l4, l5, l6, l7, l8, l9, l10⟩ :=
    compLoop_complete env maxScr comps 0 (incProgress (start_state comps t0))
      (by rw [(phase1_state_fields comps t0).2.2.2.2.2.1]; exact hnoabort)
      (by rw [(phase1_state_fields comps t0).2.2.2.2.2.1]; omega)
      (by rw [(phase1_state_fields comps t0).2.1, (phase1_state_fields comps t0).1])
  have hS : ¬ ((compLoop env maxScr comps 0
      (incProgress (start_state comps t0))).2.succCount = 0) := by
    rw [l5, (phase1_state_fields comps t0).2.2.2.2.1]
    omega
  unfold post_loop
  rw [l1]
  simp only [Bool.false_eq_true, if_false]
  rw [if_neg (by simpa using hS)]
  rw [hanalysis]
  dsimp only
  constructor
  · intro k hk hfail hsuccA
    rw [firstSuccess_eq_some env.emailOk 3 k hk hfail hsuccA]
    dsimp only
    refine ⟨rfl, ?_, ?_, ?_⟩
    · simp [incProgress, pushProgress, pushStatus, update_progress, update_status]
    · simp [incProgress, pushProgress, pushStatus]
    · simp [incProgress, pushProgress, pushStatus]
  · intro hfail
    rw [firstSuccess_eq_none env.emailOk 3 hfail]
    dsimp only
    refine ⟨rfl, ?_, ?_, ?_, ?_⟩
    · simp [pushStatus, update_status]
    · have hs3 : ("Email failed after " ++ toString (3 : Nat) ++ " retries") =
          "Email failed after 3 retries" := by decide
      simp [pushStatus, update_status, py_truthy, hs3]
    · show (compLoop env maxScr comps 0
        (incProgress (start_state comps t0))).2.finalizeRan = false
      rw [l8, (phase1_state_fields comps t0).2.2.2.2.2.2.2.2.2.1]
    · simp [pushStatus, incProgress, pushProgress]

/-- C9 environment for the witness: one cached competitor, analysis fine,
email succeeding at the first attempt. -/
def c9_env : Env :=
  { inventoryError := none, toolsError := none, cacheValid := fun _ => true,
    scrapeOk := fun _ _ => true, analysisError := none, emailOk := fun _ => true }

/-- The competitor of the C9 witness run. -/
def c9_comp : CompetitorInit := { url := "https://c9.example", name := "C9" }

/-- C9 witness: with every attempt succeeding (k = 0), the concrete run ends
completed after one email attempt. -/
theorem C9_witness :
    (process_job c9_env 2 3 [c9_comp] 0).1 = true ∧
    (process_job c9_env 2 3 [c9_comp] 0).2.job.status = "completed" ∧
    (process_job c9_env 2 3 [c9_comp] 0).2.emailAttempts = 1 := by
  have h := (C9_email_retry_budget c9_env 2 [c9_comp] 0 rfl rfl (by decide)
    (by decide) rfl).1 0 (by omega)
    (fun a h1 h2 => absurd (Nat.le_trans h1 h2) (by decide)) rfl
  exact ⟨h.1, h.2.1, h.2.2.2⟩

/-- The n-th counted failure lies before the end of the scanned list. -/
theorem nthFailIdx_lt (fails : Nat → Bool) :
    ∀ (cs : List CompetitorInit) (n idx k : Nat),
      nthFailIdx fails n idx cs = some k → k < idx + cs.length := by
  intro cs
  induction cs with
  | nil => intro n idx k h; exact absurd h (by simp [nthFailIdx])
  | cons c rest ih =>
    intro n idx k h
    rw [nthFailIdx] at h
    by_cases hf : fails idx = true
    · rw [if_pos hf] at h
      by_cases hn : n = 1
      · rw [if_pos hn] at h
        have := Option.some.inj h
        simp only [List.length_cons]
        omega
      · rw [if_neg hn] at h
        have := ih (n - 1) (idx + 1) k h
        simp only [List.length_cons]
        omega
    · rw [if_neg hf] at h
      have := ih n (idx + 1) k h
      simp only [List.length_cons]
      omega

/-- The positional view of the pending competitor rows created with a
job. -/
theorem create_competitor_rows_getElem (comps : List CompetitorInit) (i : Nat) :
    (create_competitor_rows comps)[i]? = (comps[i]?).map pending_row := by
  unfold create_competitor_rows
  exact List.getElem?_map _ _ _

/-- The post-loop phases of a non-aborted run record the step counter the
loop reached and never touch the competitor rows. -/
theorem post_loop_fields (env : Env) (maxEmail : Nat) (res : Bool × OState)
    (hres : res.1 = false) :
    (post_loop env maxEmail res).2.stepsAfterLoop = some res.2.steps ∧
    (post_loop env maxEmail res).2.comps = res.2.comps := by
  unfold post_loop
  rw [hres]
  simp only [Bool.false_eq_true, if_false]
  by_cases hS : res.2.succCount = 0
  · rw [if_pos hS]
    exact ⟨by simp [pushStatus], by simp [pushStatus]⟩
  · rw [if_neg hS]
    cases hAn : env.analysisError with
    | some e =>
      exact ⟨by simp [pushStatus], by simp [pushStatus]⟩
    | none =>
      dsimp only
      cases hE : firstSuccess env.emailOk maxEmail with
      | none =>
        exact ⟨by simp [pushStatus, incProgress, pushProgress],
          by simp [pushStatus, incProgress, pushProgress]⟩
      | some a =>
        exact ⟨by simp [pushStatus, incProgress, pushProgress],
          by simp [pushStatus, incProgress, pushProgress]⟩

/-- C5: when phase 1 succeeds and the second permanent competitor failure
happens at 0-based position k (any list length, any retry budget), the run
stops there: exactly the competitors at positions 0..k are attempted, every
later CompetitorTask row is set to aborted with the fixed reason, the job is
set to failed with the summary message, process_job returns False, and
neither the analysis, email nor finalize phase runs. -/
theorem C5_abort_on_second_failure (env : Env) (maxScr maxEmail : Nat)
    (comps : List CompetitorInit) (t0 k : Nat)
    (hnodup : (comps.map (fun c => c.url)).Nodup)
    (hinv : env.inventoryError = none) (htools : env.toolsError = none)
    (hk : nthFailIdx (failsB env maxScr) 2 0 comps = some k) :
    (process_job env maxScr maxEmail comps t0).1 = false ∧
    (process_job env maxScr maxEmail comps t0).2.job.status = "failed" ∧
    (process_job env maxScr maxEmail comps t0).2.job.error_message =
      some "Aborting: 2 competitors failed (threshold: 2)" ∧
    (process_job env maxScr maxEmail comps t0).2.attempted = List.range' 0 (k + 1) ∧
    (∀ m : Nat, k < m → m ∉ (process_job env maxScr maxEmail comps t0).2.attempted) ∧
    (∀ i : Nat, k < i → i < comps.length →
      ∃ r : CompetitorRow,
        (process_job env maxScr maxEmail comps t0).2.comps[i]? = some r ∧
        r.status = "aborted" ∧ r.error_message = some abortCompMsg) ∧
    (process_job env maxScr maxEmail comps t0).2.analysisRan = false ∧
    (process_job env maxScr maxEmail comps t0).2.emailAttempts = 0 ∧
    (process_job env maxScr maxEmail comps t0).2.finalizeRan = false := by
  unfold process_job
  rw [hinv, htools]
  dsimp only
  obtain ⟨g1, g2, g3, g4, g5, g6, g7, g8, g9, g10, g11, g12⟩ :=
    compLoop_abort env maxScr comps 0 (incProgress (start_state comps t0)) k
      (by rw [(phase1_state_fields comps t0).2.2.2.2.2.1]; exact hk)
      (by rw [(phase1_state_fields comps t0).2.2.2.2.2.1]; omega)
      (by rw [(phase1_state_fields comps t0).2.1, (phase1_state_fields comps t0).1])
  unfold post_loop
  rw [g1]
  rw [if_pos rfl]
  have hatt : (compLoop env maxScr comps 0
      (incProgress (start_state comps t0))).2.attempted = List.range' 0 (k + 1) := by
    rw [g7, (phase1_state_fields comps t0).2.2.2.2.2.2.1]
    simp
  refine ⟨rfl, g4, g5, hatt, ?_, ?_, ?_, ?_, ?_⟩
  · intro m hm hmem
    rw [hatt, List.mem_range'] at hmem
    obtain ⟨i, hi, rfl⟩ := hmem
    omega
  · intro i hi hlen
    have hci : comps[i]? = some comps[i] := List.getElem?_eq_getElem hlen
    have hrow : (incProgress (start_state comps t0)).comps[i]? =
        some (pending_row comps[i]) := by
      rw [(phase1_state_fields comps t0).2.2.2.2.2.2.2.2.2.2.2,
        create_competitor_rows_getElem, hci]
      rfl
    have hmem : (pending_row comps[i]).competitor_url ∈
        (comps.drop (k + 1 - 0)).map (fun c => c.url) := by
      have hdm : comps[i] ∈ comps.drop (k + 1) := by
        apply List.getElem?_mem (n := i - (k + 1))
        rw [List.getElem?_drop]
        rw [show k + 1 + (i - (k + 1)) = i by omega]
        exact hci
      simp only [Nat.sub_zero]
      exact List.mem_map_of_mem _ hdm
    have := (g12 hnodup i _ hrow).2.2 hmem
    exact ⟨_, this, rfl, rfl⟩
  · rw [g8, (phase1_state_fields comps t0).2.2.2.2.2.2.2.1]
  · rw [g9, (phase1_state_fields comps t0).2.2.2.2.2.2.2.2.1]
  · rw [g10, (phase1_state_fields comps t0).2.2.2.2.2.2.2.2.2.1]

/-- Environment of the C5 witness: phase 1 fine, every cache lookup misses
and every scrape attempt fails. -/
def c5_env : Env :=
  { inventoryError := none, toolsError := none, cacheValid := fun _ => false,
    scrapeOk := fun _ _ => false, analysisError := none, emailOk := fun _ => true }

/-- Competitors of the C5 witness run. -/
def c5_comps : List CompetitorInit :=
  [{ url := "https://a5.example", name := "A5" },
   { url := "https://b5.example", name := "B5" },
   { url := "https://c5.example", name := "C5" }]

/-- C5 witness: with three competitors whose first two fail, the second
failure (position 1) aborts the run: positions 0 and 1 are attempted, the
third row is aborted, the job is failed. -/
theorem C5_witness :
    (process_job c5_env 2 3 c5_comps 0).1 = false ∧
    (process_job c5_env 2 3 c5_comps 0).2.attempted = List.range' 0 2 ∧
    (∃ r : CompetitorRow, (process_job c5_env 2 3 c5_comps 0).2.comps[2]? = some r ∧
      r.status = "aborted" ∧ r.error_message = some abortCompMsg) := by
  have h := C5_abort_on_second_failure c5_env 2 3 c5_comps 0 1 (by decide) rfl rfl
    (by decide)
  exact ⟨h.1, h.2.2.2.1, h.2.2.2.2.2.1 2 (by omega) (by decide)⟩

/-- Environment of the C3 counterexample: every cache lookup misses and
every scrape attempt fails. -/
def c3_env : Env :=
  { inventoryError := none, toolsError := none, cacheValid := fun _ => false,
    scrapeOk := fun _ _ => false, analysisError := none, emailOk := fun _ => true }

/-- Competitors of the C3 counterexample run: two urls, both failing. -/
def c3_comps : List CompetitorInit :=
  [{ url := "https://a3.example", name := "A3" },
   { url := "https://b3.example", name := "B3" }]

/-- C3 counterexample: with two competitors that both fail, both rows are
resolved (marked failed after exhausting retries), so under the claim the
persisted completed_steps would be 1 (phase 1) + 2 = 3; the code leaves it
at 2, because the abort path returns before the increment of the competitor
whose failure reached the threshold. -/
theorem C3_counterexample_trigger_not_counted :
    (process_job c3_env 2 3 c3_comps 0).2.job.completed_steps = 2 ∧
    ((process_job c3_env 2 3 c3_comps 0).2.comps[0]?).map (fun r => r.status) =
      some "failed" ∧
    ((process_job c3_env 2 3 c3_comps 0).2.comps[1]?).map (fun r => r.status) =
      some "failed" ∧
    ¬ (process_job c3_env 2 3 c3_comps 0).2.job.completed_steps = 1 + 2 := by
  decide

/-- C3 (amended): each resolved competitor increments the persisted
completed_steps by exactly 1, EXCEPT the failed competitor whose failure
reaches the abort threshold, which is resolved (its row is marked failed)
without incrementing.  Concretely, when the second failure happens at
position k the job ends with completed_steps = 1 + k while the k + 1 rows at
positions 0..k are all resolved (completed or failed, the row at k failed);
and when the loop finishes without aborting, every one of the n competitors
is resolved and the recorded step counter after the loop is 1 + n. -/
theorem C3_resolved_step_increments (env : Env) (maxScr maxEmail : Nat)
    (comps : List CompetitorInit) (t0 : Nat)
    (hnodup : (comps.map (fun c => c.url)).Nodup)
    (hinv : env.inventoryError = none) (htools : env.toolsError = none) :
    (∀ k : Nat, nthFailIdx (failsB env maxScr) 2 0 comps = some k →
      (process_job env maxScr maxEmail comps t0).2.job.completed_steps = 1 + k ∧
      (∀ i : Nat, i ≤ k → i < comps.length →
        ∃ r : CompetitorRow,
          (process_job env maxScr maxEmail comps t0).2.comps[i]? = some r ∧
          (r.status = "completed" ∨ r.status = "failed")) ∧
      (∃ r : CompetitorRow,
        (process_job env maxScr maxEmail comps t0).2.comps[k]? = some r ∧
        r.status = "failed")) ∧
    (nthFailIdx (failsB env maxScr) 2 0 comps = none →
      (process_job env maxScr maxEmail comps t0).2.stepsAfterLoop =
        some (1 + comps.length) ∧
      (∀ i : Nat, i < comps.length →
        ∃ r : CompetitorRow,
          (process_job env maxScr maxEmail comps t0).2.comps[i]? = some r ∧
          (r.status = "completed" ∨ r.status = "failed"))) := by
  unfold process_job
  rw [hinv, htools]
  dsimp only
  constructor
  · intro k hk
    obtain ⟨g1, g2, g3, g4, g5, g6, g7, g8, g9, g10, g11, g12⟩ :=
      compLoop_abort env maxScr comps 0 (incProgress (start_state comps t0)) k
        (by rw [(phase1_state_fields comps t0).2.2.2.2.2.1]; exact hk)
        (by rw [(phase1_state_fields comps t0).2.2.2.2.2.1]; omega)
        (by rw [(phase1_state_fields comps t0).2.1, (phase1_state_fields comps t0).1])
    have hklen : k < comps.length := by
      have := nthFailIdx_lt (failsB env maxScr) comps 2 0 k hk
      omega
    unfold post_loop
    rw [g1]
    rw [if_pos rfl]
    have hrowk : (incProgress (start_state comps t0)).comps[k]? =
        some (pending_row comps[k]) := by
      rw [(phase1_state_fields comps t0).2.2.2.2.2.2.2.2.2.2.2,
        create_competitor_rows_getElem, List.getElem?_eq_getElem hklen]
      rfl
    refine ⟨?_, ?_, ?_⟩
    · rw [g3, (phase1_state_fields comps t0).1]
      omega
    · intro i hik hlen
      have hci : comps[i]? = some comps[i] := List.getElem?_eq_getElem hlen
      have hrow : (incProgress (start_state comps t0)).comps[i]? =
          some (pending_row comps[i]) := by
        rw [(phase1_state_fields comps t0).2.2.2.2.2.2.2.2.2.2.2,
          create_competitor_rows_getElem, hci]
        rfl
      rcases Nat.lt_or_eq_of_le hik with hlt | rfl
      · have hmem : (pending_row comps[i]).competitor_url ∈
            (comps.take (k - 0)).map (fun c => c.url) := by
        
          have htk : comps[i] ∈ comps.take k := by
            apply List.getElem?_mem (n := i)
            rw [List.getElem?_take]
            rw [if_pos hlt]
            exact hci
          simp only [Nat.sub_zero]
          exact List.mem_map_of_mem _ htk
        exact (g12 hnodup i _ hrow).1 hmem
      · have := (g12 hnodup i _ hrow).2.1 comps[i]
          (by simp only [Nat.sub_zero]; exact hci) rfl
        exact ⟨_, this, Or.inr rfl⟩
    · have := (g12 hnodup k _ hrowk).2.1 comps[k]
        (by simp only [Nat.sub_zero]; exact List.getElem?_eq_getElem hklen) rfl
      exact ⟨_, this, rfl⟩
  · intro hnone
    obtain ⟨l1, l2, l3, l4, l5, l6, l7, l8, l9, l10⟩ :=
      compLoop_complete env maxScr comps 0 (incProgress (start_state comps t0))
        (by rw [(phase1_state_fields comps t0).2.2.2.2.2.1]; exact hnone)
        (by rw [(phase1_state_fields comps t0).2.2.2.2.2.1]; omega)
        (by rw [(phase1_state_fields comps t0).2.1, (phase1_state_fields comps t0).1])
    obtain ⟨hsl, hcomps⟩ := post_loop_fields env maxEmail _ l1
    refine ⟨?_, ?_⟩
    · rw [hsl, l2, (phase1_state_fields comps t0).1]
    · intro i hlen
      have hci : comps[i]? = some comps[i] := List.getElem?_eq_getElem hlen
      have hrow : (incProgress (start_state comps t0)).comps[i]? =
          some (pending_row comps[i]) := by
        rw [(phase1_state_fields comps t0).2.2.2.2.2.2.2.2.2.2.2,
          create_competitor_rows_getElem, hci]
        rfl
      have hmem : (pending_row comps[i]).competitor_url ∈
          comps.map (fun c => c.url) :=
        List.mem_map_of_mem _ (List.getElem?_mem hci)
      have := l10 hnodup i _ hrow hmem
      rw [hcomps]
      exact this

/-- C3 witness: on the counterexample run the second failure happens at
position 1, and indeed completed_steps ends at 1 + 1 with the trigger row
marked failed. -/
theorem C3_witness :
    (process_job c3_env 2 3 c3_comps 0).2.job.completed_steps = 1 + 1 ∧
    (∃ r : CompetitorRow, (process_job c3_env 2 3 c3_comps 0).2.comps[1]? = some r ∧
      r.status = "failed") := by
  have h := (C3_resolved_step_increments c3_env 2 3 c3_comps 0 (by decide)
    rfl rfl).1 1 (by decide)
  exact ⟨h.1, h.2.2⟩

end CompIntel
